import Mathlib

/-!
# Verification of the prompt-template service

A shallow embedding of the template placeholder engine and the template
operations layer of the repository (`app/services/template_service.py`,
`app/database.py`, `app/routes/api.py`), with theorems settling the claims
about it.

Machine text is modelled as `String` (a list of characters); the Python
regular expressions `<%=\s*([a-zA-Z_][a-zA-Z0-9_]*)\s*%>` (extraction) and
`<%=\s*NAME\s*%>`, `<%\s*=\s*NAME\s*%>` (substitution, via `re.sub`) are
embedded as deterministic scanners.  The patterns are `str` patterns, so
`\s` is the full Unicode whitespace class; because that class, the
identifier class and the literal delimiter characters are pairwise disjoint,
the greedy regex match at a position is deterministic, and `re.findall` /
`re.sub` scan left to right taking leftmost non-overlapping matches; the
scanners below implement exactly that.  `re.sub` does not insert its string
replacement argument verbatim: the replacement is a template, compiled
before the scan (so an invalid template raises `re.error` even when the
pattern never matches), with escape sequences translated and `\g<0>`
denoting the whole match; `parseTmpl` embeds that template compilation
(CPython 3.11 `re._parser.parse_template` for a pattern without capturing
groups) and `expandTmpl` the per-match expansion.  The SQLite store is
modelled as an in-memory list of records with a monotone id counter and a
logical clock for the timestamps; the `UNIQUE` constraint on the `name`
column makes a colliding `UPDATE` fail with `sqlite3.IntegrityError`.
Python `dict`s (insertion ordered) are modelled as association lists.
Python exceptions are modelled by an error type that records the exception
class surfaced to the route handlers (`ValueError` versus anything else),
which is what `app/routes/api.py` dispatches on.
-/

namespace PromptTemplates

/-! ## Character classes of the regular expressions -/

/-- The characters Python's `\s` matches in a `str` pattern (CPython
`SRE_UNI_IS_SPACE`, i.e. `Py_UNICODE_ISSPACE`): the ASCII whitespace
`\t\n\x0b\x0c\r` and space, the separator controls `\x1c`-`\x1f`, next line
`\x85`, no-break space `\xa0`, ogham space mark `\u1680`, the fixed-width
spaces `\u2000`-`\u200a`, the line and paragraph separators `\u2028` and
`\u2029`, narrow no-break space `\u202f`, medium mathematical space
`\u205f` and ideographic space `\u3000`. -/
def pySpaceChars : List Char :=
  ['\t', '\n', '\x0b', '\x0c', '\r', '\x1c', '\x1d', '\x1e', '\x1f', ' ',
   '\x85', '\xa0', '\u1680', '\u2000', '\u2001', '\u2002', '\u2003', '\u2004',
   '\u2005', '\u2006', '\u2007', '\u2008', '\u2009', '\u200a', '\u2028',
   '\u2029', '\u202f', '\u205f', '\u3000']

/-- Python `\s` in `str` (Unicode) mode. -/
def isSpc (c : Char) : Bool := pySpaceChars.contains c

/-- `[a-zA-Z_]`, the first character of an identifier. -/
def identStart (c : Char) : Bool :=
  ('a' ≤ c && c ≤ 'z') || ('A' ≤ c && c ≤ 'Z') || c = '_'

/-- `[a-zA-Z0-9_]`, a continuation character of an identifier. -/
def identChar (c : Char) : Bool :=
  identStart c || ('0' ≤ c && c ≤ '9')

/-- A nonempty list of characters matching `[a-zA-Z_][a-zA-Z0-9_]*`. -/
def validIdentL : List Char → Bool
  | [] => false
  | c :: rest => identStart c && rest.all identChar

/-- A string that is a valid placeholder identifier. -/
def validIdent (s : String) : Bool := validIdentL s.data

/-! ## `re.sub` replacement templates

`re.sub(pattern, repl, text)` with a string `repl` does not insert `repl`
verbatim: `repl` is compiled into a replacement template (CPython
`re._parser.parse_template`) before the text is scanned, so an invalid
template raises `re.error` even when the pattern never matches.  The
template translates `\\` and the escapes `\a \b \f \n \r \t \v`, octal
escapes `\0..`, `\ooo`, and group references `\1`-`\99` and `\g<...>`; a
backslash before any other ASCII letter and a trailing backslash are
errors; a backslash before any other character stays as the two characters.
The two substitution patterns of `_fill_template_variables` contain no
capturing groups, so a numeric group reference other than 0 is an
"invalid group reference" error and only `\g<0>` — the whole match — is
valid, making the expansion of a template a function of the matched span. -/

/-- One piece of a compiled replacement template: a literal character, or a
reference to group 0 (the whole match). -/
inductive TmplItem where
  | lit (c : Char)
  | grp0
deriving Repr, DecidableEq

/-- The failures of replacement-template compilation, which surface as the
exceptions `re.error` (all constructors but `unknownGroupName`) or
`IndexError` (`unknownGroupName`); neither is a `ValueError`. -/
inductive ReplError where
  | badEscape (c : Char)
  | badEscapeEnd
  | invalidGroupRef (index : Nat)
  | negativeGroupRef
  | octalOutOfRange
  | missingLt
  | missingGt
  | missingGroupName
  | badGroupName (name : String)
  | unknownGroupName (name : String)
deriving Repr, DecidableEq

/-- `[0-7]`. -/
def isOct (c : Char) : Bool := '0' ≤ c && c ≤ '7'

/-- The numeric value of an ASCII digit. -/
def digVal (c : Char) : Nat := c.toNat - '0'.toNat

/-- `[a-zA-Z]` (the letters whose unknown escapes `parse_template`
rejects). -/
def isAsciiLetter (c : Char) : Bool := ('a' ≤ c && c ≤ 'z') || ('A' ≤ c && c ≤ 'Z')

/-- The value escapes of `re._parser.ESCAPES` as used in a template:
`\\ \a \b \f \n \r \t \v`. -/
def escChar : Char → Option Char
  | '\\' => some '\\'
  | 'a' => some (Char.ofNat 7)
  | 'b' => some (Char.ofNat 8)
  | 'f' => some (Char.ofNat 12)
  | 'n' => some '\n'
  | 'r' => some '\r'
  | 't' => some '\t'
  | 'v' => some (Char.ofNat 11)
  | _ => none

/-- The digit loop of Python `int`: ASCII digits, with a single underscore
allowed between digit groups. -/
def intLoop : Nat → List Char → Option Nat
  | acc, [] => some acc
  | acc, '_' :: c :: rest =>
    if c.isDigit then intLoop (acc * 10 + digVal c) rest else none
  | acc, c :: rest =>
    if c.isDigit then intLoop (acc * 10 + digVal c) rest else none

/-- Python `int(name)` on a `\g<...>` group name: surrounding whitespace
stripped, an optional sign, then underscore-grouped ASCII digits (non-ASCII
decimal digits, which Python `int` also accepts, are not modelled).  Returns
the sign and the magnitude. -/
def intName (cs : List Char) : Option (Bool × Nat) :=
  match ((cs.dropWhile isSpc).reverse.dropWhile isSpc).reverse with
  | '+' :: c :: rest =>
    if c.isDigit then (intLoop (digVal c) rest).map (fun v => (false, v)) else none
  | '-' :: c :: rest =>
    if c.isDigit then (intLoop (digVal c) rest).map (fun v => (true, v)) else none
  | c :: rest =>
    if c.isDigit then (intLoop (digVal c) rest).map (fun v => (false, v)) else none
  | [] => none

/-- Resolve a `\g<...>` group name against a pattern with no capturing
groups: a numeric name must be 0 (the whole match); otherwise an
identifier-shaped name is an unknown group name (`IndexError`) and anything
else a bad character in the group name (Python `str.isidentifier` is
modelled on the ASCII plane). -/
def resolveGroupName (name : List Char) : Except ReplError TmplItem :=
  match intName name with
  | some nv =>
    if nv.1 && 0 < nv.2 then .error .negativeGroupRef
    else if nv.2 = 0 then .ok .grp0
    else .error (.invalidGroupRef nv.2)
  | none =>
    if validIdentL name then .error (.unknownGroupName ⟨name⟩)
    else .error (.badGroupName ⟨name⟩)

/-- Compile one escape sequence of a replacement template: `c` is the
character after the backslash and `cs` the text after it; on success return
the emitted items and the rest of the text.  Follows
`re._parser.parse_template` for a pattern with no capturing groups:
`\g<...>` group references, `\0`/`\ooo` octal escapes, `\1`-`\99` numeric
group references (all invalid here), the value escapes, an error for any
other ASCII letter, and backslash kept before any other character. -/
def parseEsc (c : Char) (cs : List Char) : Except ReplError (List TmplItem × List Char) :=
  if c = 'g' then
    match cs with
    | '<' :: cs1 =>
      (match cs1.dropWhile (fun x => !(x = '>')) with
       | _ :: rest =>
         if (cs1.takeWhile (fun x => !(x = '>'))).isEmpty then
           .error .missingGroupName
         else
           match resolveGroupName (cs1.takeWhile (fun x => !(x = '>'))) with
           | .ok it => .ok ([it], rest)
           | .error e => .error e
       | [] =>
         if (cs1.takeWhile (fun x => !(x = '>'))).isEmpty then
           .error .missingGroupName
         else .error .missingGt)
    | _ => .error .missingLt
  else if c = '0' then
    match cs with
    | d1 :: rest1 =>
      if isOct d1 then
        match rest1 with
        | d2 :: rest2 =>
          if isOct d2 then .ok ([.lit (Char.ofNat (digVal d1 * 8 + digVal d2))], rest2)
          else .ok ([.lit (Char.ofNat (digVal d1))], rest1)
        | [] => .ok ([.lit (Char.ofNat (digVal d1))], [])
      else .ok ([.lit (Char.ofNat 0)], cs)
    | [] => .ok ([.lit (Char.ofNat 0)], [])
  else if c.isDigit then
    match cs with
    | d2 :: rest2 =>
      if d2.isDigit then
        match rest2 with
        | d3 :: rest3 =>
          if isOct c && isOct d2 && isOct d3 then
            (let v := digVal c * 64 + digVal d2 * 8 + digVal d3
             if 255 < v then .error .octalOutOfRange
             else .ok ([.lit (Char.ofNat v)], rest3))
          else .error (.invalidGroupRef (digVal c * 10 + digVal d2))
        | [] => .error (.invalidGroupRef (digVal c * 10 + digVal d2))
      else .error (.invalidGroupRef (digVal c))
    | [] => .error (.invalidGroupRef (digVal c))
  else
    match escChar c with
    | some ch => .ok ([.lit ch], cs)
    | none =>
      if isAsciiLetter c then .error (.badEscape c)
      else .ok ([.lit '\\', .lit c], cs)

/-- Compile a replacement template: copy ordinary characters, compile each
backslash escape, fail on a trailing backslash.  The fuel argument only
serves structural termination: every step consumes at least one character
(`parseEsc_length`), so fuel equal to the text length (what `parseTmpl`
passes) never runs out. -/
def parseTmplScan : Nat → List Char → Except ReplError (List TmplItem)
  | _, [] => .ok []
  | 0, _ :: _ => .ok []
  | fuel + 1, c :: cs =>
    if c = '\\' then
      match cs with
      | [] => .error .badEscapeEnd
      | c1 :: cs1 =>
        match parseEsc c1 cs1 with
        | .error e => .error e
        | .ok ir =>
          match parseTmplScan fuel ir.2 with
          | .error e => .error e
          | .ok out => .ok (ir.1 ++ out)
    else
      match parseTmplScan fuel cs with
      | .error e => .error e
      | .ok out => .ok (.lit c :: out)

/-- The compilation of the replacement template `re.sub` performs on its
string replacement argument before scanning the text. -/
def parseTmpl (val : String) : Except ReplError (List TmplItem) :=
  parseTmplScan val.data.length val.data

/-- Expand a compiled replacement template at a match: literal items emit
themselves, a group-0 reference emits the matched span `m`. -/
def expandTmpl (tmpl : List TmplItem) (m : List Char) : List Char :=
  match tmpl with
  | [] => []
  | .lit c :: rest => c :: expandTmpl rest m
  | .grp0 :: rest => m ++ expandTmpl rest m

/-! ## Extraction: `TemplateService._extract_variables_from_text`

The Python method runs `re.findall(r'<%=\s*([a-zA-Z_][a-zA-Z0-9_]*)\s*%>', text)`
and returns `sorted(list(set(matches)))`. -/

/-- Lexicographic comparison of character lists by code point, the order
Python's string comparison (and hence `sorted`) uses. -/
def lexLe : List Char → List Char → Bool
  | [], _ => true
  | _ :: _, [] => false
  | a :: as, b :: bs => if a = b then lexLe as bs else decide (a < b)

/-- Python `<=` on strings. -/
def strLe (s t : String) : Bool := lexLe s.data t.data

/-- Insert into a sorted list of strings. -/
def insertStr (a : String) : List String → List String
  | [] => [a]
  | b :: l => if strLe a b then a :: b :: l else b :: insertStr a l

/-- Python `sorted` on a list of strings: a stable sort by `strLe`
(insertion sort; the result is characterized by being a sorted permutation). -/
def sortStrs : List String → List String
  | [] => []
  | a :: l => insertStr a (sortStrs l)

/-- Match `\s*([a-zA-Z_][a-zA-Z0-9_]*)\s*%>` at the front of `cs` (the text
right after a literal `<%=`); on success return the captured identifier and
the rest of the text after `%>`. -/
def matchVar (cs : List Char) : Option (String × List Char) :=
  match (cs.dropWhile isSpc).takeWhile identChar with
  | [] => none
  | c :: nmrest =>
    if identStart c then
      match ((cs.dropWhile isSpc).dropWhile identChar).dropWhile isSpc with
      | '%' :: '>' :: rest => some (String.mk (c :: nmrest), rest)
      | _ => none
    else none

theorem dropWhile_length_le (p : α → Bool) (l : List α) :
    (l.dropWhile p).length ≤ l.length := by
  induction l with
  | nil => simp
  | cons a l ih =>
    rw [List.dropWhile_cons]
    split
    · simp only [List.length_cons]
      omega
    · simp

theorem matchVar_length {cs : List Char} {nr : String × List Char}
    (h : matchVar cs = some nr) : nr.2.length < cs.length := by
  unfold matchVar at h
  cases hnm : (cs.dropWhile isSpc).takeWhile identChar with
  | nil => simp [hnm] at h
  | cons c rest =>
    simp only [hnm] at h
    by_cases hs : identStart c = true
    · simp only [hs, if_true] at h
      have hlen1 : ((cs.dropWhile isSpc).dropWhile identChar).length + 1
          ≤ (cs.dropWhile isSpc).length := by
        have hl := congrArg List.length
          (List.takeWhile_append_dropWhile (p := identChar) (l := cs.dropWhile isSpc))
        simp only [List.length_append, hnm, List.length_cons] at hl
        omega
      have hlen2 : (((cs.dropWhile isSpc).dropWhile identChar).dropWhile isSpc).length
          ≤ ((cs.dropWhile isSpc).dropWhile identChar).length :=
        dropWhile_length_le _ _
      have hlen3 : (cs.dropWhile isSpc).length ≤ cs.length :=
        dropWhile_length_le _ _
      split at h
      · rename_i rest' heq
        cases h
        show rest'.length < cs.length
        rw [heq] at hlen2
        simp only [List.length_cons] at hlen2
        omega
      · exact absurd h (by simp)
    · simp [hs] at h

/-- The scan of `re.findall`: walk the text; at each literal `<%=` try the
variable pattern; on success collect the name and resume after the match
(leftmost, non-overlapping); on failure resume one character later.  The
fuel argument only serves structural termination: every step consumes at
least one character, so fuel equal to the text length (what
`extract_variables_from_text` passes) never runs out. -/
def extractScan : Nat → List Char → List String
  | _, [] => []
  | fuel + 1, '<' :: '%' :: '=' :: rest =>
    (match matchVar rest with
     | some nr => nr.1 :: extractScan fuel nr.2
     | none => extractScan fuel ('%' :: '=' :: rest))
  | fuel + 1, _ :: rest => extractScan fuel rest
  | 0, _ :: _ => []

/-- `TemplateService._extract_variables_from_text`: find all placeholder
names, remove duplicates, return them sorted. -/
def extract_variables_from_text (text : String) : List String :=
  sortStrs (extractScan text.data.length text.data).dedup

/-! ## Substitution: `TemplateService._fill_template_variables`

For each `(var_name, var_value)` of the mapping, in iteration order, the
Python method runs `re.sub` twice on the accumulated text: first with the
pattern `<%=\s*NAME\s*%>`, then with `<%\s*=\s*NAME\s*%>`.  `re.sub` replaces
the leftmost non-overlapping matches, scanning left to right and resuming
after each replaced region (the replacement text itself is not rescanned in
the same pass). -/

/-- Strip a literal prefix from a list, returning the rest on success. -/
def stripPref : List Char → List Char → Option (List Char)
  | [], cs => some cs
  | _ :: _, [] => none
  | p :: ps, c :: cs => if p = c then stripPref ps cs else none

/-- Match `\s*NAME\s*%>` at the front of `cs` (the text right after a literal
`<%=`); on success return the matched span (without the leading `<%=`) and
the rest of the text after `%>`.  The span is needed because a replacement
template may reference group 0, the whole match. -/
def matchFill1 (name cs : List Char) : Option (List Char × List Char) :=
  match stripPref name (cs.dropWhile isSpc) with
  | none => none
  | some cs2 =>
    match cs2.dropWhile isSpc with
    | '%' :: '>' :: rest =>
      some (cs.takeWhile isSpc ++ name ++ cs2.takeWhile isSpc ++ ['%', '>'], rest)
    | _ => none

/-- Match `\s*=\s*NAME\s*%>` at the front of `cs` (the text right after a
literal `<%`); on success return the matched span (without the leading `<%`)
and the rest of the text after `%>`. -/
def matchFill2 (name cs : List Char) : Option (List Char × List Char) :=
  match cs.dropWhile isSpc with
  | '=' :: cs1 =>
    match matchFill1 name cs1 with
    | some ir => some (cs.takeWhile isSpc ++ '=' :: ir.1, ir.2)
    | none => none
  | _ => none

theorem stripPref_sound : ∀ {p s t : List Char}, stripPref p s = some t → s = p ++ t
  | [], _, _, h => by
    simp only [stripPref, Option.some.injEq] at h
    simp [h]
  | p :: ps, c :: cs, t, h => by
    unfold stripPref at h
    split at h
    · rename_i hpc
      subst hpc
      simpa using stripPref_sound h
    · exact absurd h (by simp)

theorem stripPref_self : ∀ (p t : List Char), stripPref p (p ++ t) = some t
  | [], t => by simp [stripPref]
  | p :: ps, t => by simp [stripPref, stripPref_self ps t]

theorem matchFill1_length {name cs : List Char} {ir : List Char × List Char}
    (h : matchFill1 name cs = some ir) : ir.2.length < cs.length := by
  unfold matchFill1 at h
  split at h
  · exact absurd h (by simp)
  · rename_i cs2 hstrip
    split at h
    · rename_i rest' heq
      cases h
      show rest'.length < cs.length
      have h1 : (cs.dropWhile isSpc).length ≤ cs.length := dropWhile_length_le _ _
      have h2 : cs2.length ≤ (cs.dropWhile isSpc).length := by
        have := congrArg List.length (stripPref_sound hstrip)
        simp only [List.length_append] at this
        omega
      have h3 : (cs2.dropWhile isSpc).length ≤ cs2.length := dropWhile_length_le _ _
      rw [heq] at h3
      simp only [List.length_cons] at h3
      omega
    · exact absurd h (by simp)

theorem matchFill2_length {name cs : List Char} {ir : List Char × List Char}
    (h : matchFill2 name cs = some ir) : ir.2.length < cs.length := by
  unfold matchFill2 at h
  split at h
  · rename_i cs1 heq
    have h1 : (cs.dropWhile isSpc).length ≤ cs.length := dropWhile_length_le _ _
    rw [heq] at h1
    simp only [List.length_cons] at h1
    split at h
    · rename_i ir1 hm1
      cases h
      have := matchFill1_length hm1
      simp only at *
      omega
    · exact absurd h (by simp)
  · exact absurd h (by simp)

/-- One pass of `re.sub` with the pattern `<%=\s*NAME\s*%>` and a compiled
replacement template: scan left to right; at each literal `<%=` that begins
a match, emit the expansion of the template at the matched span and resume
after the match; otherwise copy a character and move on.  Fuel as in
`extractScan`: `subst1` passes the text length, which never runs out. -/
def subst1Scan (name : List Char) (tmpl : List TmplItem) : Nat → List Char → List Char
  | _, [] => []
  | fuel + 1, '<' :: '%' :: '=' :: cs =>
    (match matchFill1 name cs with
     | some ir => expandTmpl tmpl ('<' :: '%' :: '=' :: ir.1)
         ++ subst1Scan name tmpl fuel ir.2
     | none => '<' :: subst1Scan name tmpl fuel ('%' :: '=' :: cs))
  | fuel + 1, c :: cs => c :: subst1Scan name tmpl fuel cs
  | 0, cs => cs

def subst1 (name : List Char) (tmpl : List TmplItem) (text : List Char) : List Char :=
  subst1Scan name tmpl text.length text

/-- One pass of `re.sub` with the pattern `<%\s*=\s*NAME\s*%>`. -/
def subst2Scan (name : List Char) (tmpl : List TmplItem) : Nat → List Char → List Char
  | _, [] => []
  | fuel + 1, '<' :: '%' :: cs =>
    (match matchFill2 name cs with
     | some ir => expandTmpl tmpl ('<' :: '%' :: ir.1)
         ++ subst2Scan name tmpl fuel ir.2
     | none => '<' :: subst2Scan name tmpl fuel ('%' :: cs))
  | fuel + 1, c :: cs => c :: subst2Scan name tmpl fuel cs
  | 0, cs => cs

def subst2 (name : List Char) (tmpl : List TmplItem) (text : List Char) : List Char :=
  subst2Scan name tmpl text.length text

/-- One iteration of the loop body of `_fill_template_variables`: compile the
value into a replacement template (`re.sub` does this before scanning, so an
invalid template raises even when the pattern never matches — both `re.sub`
calls compile the same value, so the first raises first), then apply both
`re.sub` patterns for one key to the accumulated text. -/
def fillVar (text : String) (name val : String) : Except ReplError String :=
  match parseTmpl val with
  | .error e => .error e
  | .ok tmpl => .ok ⟨subst2 name.data tmpl (subst1 name.data tmpl text.data)⟩

/-- `TemplateService._fill_template_variables`: the per-key substitution
applied over the mapping in iteration (insertion) order; an `re.error`
raised by any `re.sub` call aborts the loop and propagates. -/
def fill_template_variables : String → List (String × String) → Except ReplError String
  | template_text, [] => .ok template_text
  | template_text, kv :: rest =>
    match fillVar template_text kv.1 kv.2 with
    | .error e => .error e
    | .ok t2 => fill_template_variables t2 rest

/-- The stand-in pairs `preview_template` synthesizes: one `(v, "[" ++ v ++ "]")`
per extracted variable with no supplied value. -/
def previewStandins (template_text : String)
    (vals : List (String × String)) : List (String × String) :=
  (((extract_variables_from_text template_text).filter
      (fun v => !(vals.map Prod.fst).contains v)).map
    (fun v => (v, "[" ++ v ++ "]")))

/-- `TemplateService.preview_template`: extract the variables, add a bracketed
stand-in value for each one the mapping does not supply (the Python code
mutates the dict, appending the new keys after the supplied ones), then fill. -/
def preview_template (template_text : String)
    (vals : List (String × String)) : Except ReplError String :=
  fill_template_variables template_text
    (vals ++ previewStandins template_text vals)

/-! ## The template store: `app/database.py`

The SQLite database is modelled in memory: the `templates` table as a list of
records in storage (insertion) order, the `template_usage` table as a list of
`(template_id, used_at)` rows, `AUTOINCREMENT` as a monotone counter, and
`CURRENT_TIMESTAMP` as a logical clock `now`. -/

/-- A row of the `templates` table. -/
structure TemplateRec where
  id : Nat
  name : String
  description : Option String
  text : String
  vars : List String
  category : Option String
  created_at : Nat
  updated_at : Nat
  usage_count : Nat
deriving Repr, DecidableEq

/-- The database state. -/
structure DBState where
  templates : List TemplateRec
  usageLog : List (Nat × Nat)
  nextId : Nat
  now : Nat
deriving Repr, DecidableEq

/-- `DatabaseManager.get_template`: `SELECT * FROM templates WHERE id = ?`
(first matching row). -/
def db_get_template (st : DBState) (template_id : Nat) : Option TemplateRec :=
  st.templates.find? (fun t => t.id == template_id)

/-- `DatabaseManager.get_template_by_name`:
`SELECT * FROM templates WHERE name = ?` (first matching row). -/
def db_get_template_by_name (st : DBState) (name : String) : Option TemplateRec :=
  st.templates.find? (fun t => t.name == name)

/-- `DatabaseManager.create_template`: insert a row with fresh id, current
timestamps and usage count 0; return the new row id. -/
def db_create_template (st : DBState) (name : String) (description : Option String)
    (text : String) (vars : List String) (category : Option String) : Nat × DBState :=
  (st.nextId,
   { st with
     templates := st.templates ++
       [⟨st.nextId, name, description, text, vars, category, st.now, st.now, 0⟩],
     nextId := st.nextId + 1 })

/-- The partial-update record (`TemplateUpdate` of `app/models.py`): every
field optional, absent means "leave unchanged". -/
structure TemplateUpdate where
  name : Option String := none
  description : Option String := none
  text : Option String := none
  vars : Option (List String) := none
  category : Option String := none
deriving Repr, DecidableEq

/-- Whether at least one `SET` clause would be built by
`DatabaseManager.update_template` (each `if field is not None`). -/
def updHasField (u : TemplateUpdate) : Bool :=
  u.name.isSome || u.description.isSome || u.text.isSome ||
    u.vars.isSome || u.category.isSome

/-- The effect of the dynamic `UPDATE ... SET ...` statement on one row:
apply every supplied field and refresh `updated_at`. -/
def applyUpd (u : TemplateUpdate) (now : Nat) (t : TemplateRec) : TemplateRec :=
  { t with
    name := u.name.getD t.name
    description := match u.description with
      | some d => some d
      | none => t.description
    text := u.text.getD t.text
    vars := u.vars.getD t.vars
    category := match u.category with
      | some c => some c
      | none => t.category
    updated_at := now }

/-- The error the SQLite driver raises on a constraint violation: the
`templates` table declares `name TEXT UNIQUE NOT NULL` (the schema in
`database.py`), so an `UPDATE` writing a name held by a different row raises
`sqlite3.IntegrityError` (not a `ValueError`). -/
inductive DbError where
  | uniqueName (name : String)
deriving Repr, DecidableEq

/-- Whether `UPDATE templates SET name = n, ... WHERE id = template_id`
violates the `UNIQUE` constraint on `name`: it rewrites some matching row
while a different row already holds `n`. -/
def nameConflictDb (st : DBState) (template_id : Nat) (n : String) : Bool :=
  st.templates.any (fun t => t.id == template_id) &&
    st.templates.any (fun t => t.id != template_id && t.name == n)

/-- `DatabaseManager.update_template`: with no supplied field return `False`
without touching the store; otherwise run the `UPDATE` on the rows matching
the id — raising `IntegrityError` and leaving the store unchanged (the
transaction is never committed) when a supplied name collides with a
different row — and return whether a row matched (`cursor.rowcount > 0`).
(An `INSERT` is subject to the same `UNIQUE` constraint; the exact-equality
pre-check of `create_template` makes a violating `INSERT` unreachable in the
service flow modelled here, so `db_create_template` does not represent
it.) -/
def db_update_template (st : DBState) (template_id : Nat) (u : TemplateUpdate) :
    Except DbError (Bool × DBState) :=
  if updHasField u then
    match u.name with
    | some n =>
      if nameConflictDb st template_id n then .error (.uniqueName n)
      else
        .ok (st.templates.any (fun t => t.id == template_id),
          { st with templates := st.templates.map (fun t => if t.id == template_id then applyUpd u st.now t else t) })
    | none =>
      .ok (st.templates.any (fun t => t.id == template_id),
        { st with templates := st.templates.map (fun t => if t.id == template_id then applyUpd u st.now t else t) })
  else .ok (false, st)

/-- `DatabaseManager.increment_usage_count`: add 1 to the matching row's
usage counter and append one row to `template_usage`. -/
def db_increment_usage_count (st : DBState) (template_id : Nat) : DBState :=
  { st with
    templates := st.templates.map
      (fun t => if t.id == template_id then
          { t with usage_count := t.usage_count + 1 } else t)
    usageLog := st.usageLog ++ [(template_id, st.now)] }

/-- `DatabaseManager.get_all_templates`: optional category filter (Python
truthiness: an empty-string category applies no filter), order by creation
time descending, and `LIMIT ? OFFSET ?` only when `limit` is truthy. -/
def db_get_all_templates (st : DBState) (category : Option String)
    (limit : Option Nat) (offset : Nat) : List TemplateRec :=
  let base := match category with
    | some c => if c = "" then st.templates
        else st.templates.filter (fun t => t.category == some c)
    | none => st.templates
  let ordered := List.insertionSort (fun a b => b.created_at ≤ a.created_at) base
  match limit with
  | some (n + 1) => (ordered.drop offset).take (n + 1)
  | _ => ordered

/-- The `most_used_template` entry built by `DatabaseManager.get_stats`: the
Python code always returns a dict; its `name` field is `None` exactly when
the table is empty. -/
structure MostUsed where
  name : Option String
  usage_count : Nat
deriving Repr, DecidableEq

/-- `SELECT name, usage_count FROM templates ORDER BY usage_count DESC LIMIT 1`:
a row with the highest usage count (first in storage order on ties), or none
when the table is empty. -/
def mostUsedRow (ts : List TemplateRec) : Option TemplateRec :=
  ts.foldl
    (fun acc t => match acc with
      | none => some t
      | some b => if b.usage_count < t.usage_count then some t else some b)
    none

/-- The result of `DatabaseManager.get_stats`. -/
structure DBStats where
  total_templates : Nat
  total_usage : Nat
  most_used_template : MostUsed
  categories_count : Nat
deriving Repr, DecidableEq

/-- `DatabaseManager.get_stats`: row count, `SUM(usage_count)` (with SQL
`NULL` on an empty table turned into 0 by `or 0`), the most used row, and
`COUNT(DISTINCT category)` over non-null categories. -/
def db_get_stats (st : DBState) : DBStats :=
  { total_templates := st.templates.length
    total_usage := (st.templates.map (·.usage_count)).sum
    most_used_template := match mostUsedRow st.templates with
      | some t => ⟨some t.name, t.usage_count⟩
      | none => ⟨none, 0⟩
    categories_count := ((st.templates.filterMap (·.category)).dedup).length }

/-! ## The template operations layer: `app/services/template_service.py`

Python exceptions are modelled by `ServiceError`, keeping both the meaning of
the failure and the exception class the route handlers dispatch on:
`wrapped` and `updateFailed` are bare `Exception`s, the others are
`ValueError`s.  Every operation returns its result together with the store
state after the call; a failing operation leaves the store unchanged. -/

deriving instance DecidableEq for Except

/-- The failures raised by the service layer.  `notFound`, `duplicateName`
and `missingVariables` are `ValueError`s; `wrapped` is the bare
`Exception("Failed to create template: ...")` that `create_template` re-raises
around any inner error, `updateFailed` the bare
`Exception("Failed to update template")`, `regexError` an `re.error` (or
`IndexError`) escaping `re.sub`, and `integrityError` an
`sqlite3.IntegrityError` escaping the database layer — none of the last
three is a `ValueError`. -/
inductive ServiceError where
  | notFound (template_id : Nat)
  | duplicateName (name : String)
  | missingVariables (missing : List String)
  | wrapped (inner : ServiceError)
  | updateFailed
  | regexError (e : ReplError)
  | integrityError (name : String)
deriving Repr, DecidableEq

/-- Whether the raised exception is a `ValueError` (the class api.py's first
`except` clause catches). -/
def isValueError : ServiceError → Bool
  | .notFound _ => true
  | .duplicateName _ => true
  | .missingVariables _ => true
  | .wrapped _ => false
  | .updateFailed => false
  | .regexError _ => false
  | .integrityError _ => false

/-- The `TemplateCreate` request record of `app/models.py`. -/
structure TemplateCreate where
  name : String
  description : Option String := none
  text : String
  vars : List String := []
  category : Option String := none
deriving Repr, DecidableEq

/-- Python `set(a) != set(b)` negated: the two lists contain the same
elements. -/
def sameSet (a b : List String) : Bool :=
  a.all (fun x => b.contains x) && b.all (fun x => a.contains x)

/-- `TemplateService.create_template`: reject an existing name, auto-correct
the declared variable list from the text, insert, and return the stored
record.  The method's blanket `except Exception` re-raises every inner error
as a bare `Exception`, which is modelled by `.wrapped`. -/
def create_template (st : DBState) (d : TemplateCreate) :
    Except ServiceError TemplateRec × DBState :=
  match db_get_template_by_name st d.name with
  | some _ => (.error (.wrapped (.duplicateName d.name)), st)
  | none =>
    let detected := extract_variables_from_text d.text
    let vs := if sameSet detected d.vars then d.vars else detected
    let (tid, st') := db_create_template st d.name d.description d.text vs d.category
    match db_get_template st' tid with
    | some t => (.ok t, st')
    | none => (.error (.wrapped (.notFound tid)), st)

/-- The HTTP status api.py's `create_template` route answers with:
`except ValueError` gives 400, any other exception 500. -/
def createStatus (r : Except ServiceError TemplateRec) : Nat :=
  match r with
  | .ok _ => 200
  | .error e => if isValueError e then 400 else 500

/-- The `UseTemplateResponse` record of `app/models.py`. -/
structure UseTemplateResponse where
  final_prompt : String
  template_name : String
  variables_used : List (String × String)
deriving Repr, DecidableEq

/-- `TemplateService.use_template`: look the template up, fail with the list
of declared variables missing from the supplied mapping (a set in Python,
hence deduplicated), else fill the text — an `re.error` raised by the fill
propagates before the usage counter is touched — then bump the usage
counter, log one usage row and echo the values used. -/
def use_template (st : DBState) (template_id : Nat)
    (variable_values : List (String × String)) :
    Except ServiceError UseTemplateResponse × DBState :=
  match db_get_template st template_id with
  | none => (.error (.notFound template_id), st)
  | some tpl =>
    let keys := variable_values.map Prod.fst
    let missing := (tpl.vars.filter (fun v => !keys.contains v)).dedup
    if missing.isEmpty then
      match fill_template_variables tpl.text variable_values with
      | .error e => (.error (.regexError e), st)
      | .ok final =>
        (.ok ⟨final, tpl.name, variable_values⟩, db_increment_usage_count st template_id)
    else
      (.error (.missingVariables missing), st)

/-- The variable re-derivation `update_template` performs when `text` is
supplied: recompute the variables from the new text and override the supplied
list unless it already has the same element set. -/
def deriveUpd (u : TemplateUpdate) : TemplateUpdate :=
  match u.text with
  | none => u
  | some txt =>
    let detected := extract_variables_from_text txt
    match u.vars with
    | none => { u with vars := some detected }
    | some vs => if sameSet detected vs then u else { u with vars := some detected }

/-- The name `update_template` checks for a conflict: the supplied name when
it is truthy (non-empty) and differs from the current one. -/
def nameToCheck (u : TemplateUpdate) (current : String) : Option String :=
  match u.name with
  | some n => if n ≠ "" && n ≠ current then some n else none
  | none => none

/-- The tail of `TemplateService.update_template` after its checks: run the
database update — an `IntegrityError` it raises propagates, the method has
no handler for it — fail with a bare `Exception` when it reports no change,
else return the freshly loaded record. -/
def update_apply (st : DBState) (template_id : Nat) (u : TemplateUpdate) :
    Except ServiceError TemplateRec × DBState :=
  match db_update_template st template_id u with
  | .error (.uniqueName n) => (.error (.integrityError n), st)
  | .ok (false, st') => (.error .updateFailed, st')
  | .ok (true, st') =>
    match db_get_template st' template_id with
    | some t => (.ok t, st')
    | none => (.error (.notFound template_id), st')

/-- `TemplateService.update_template`: require the id to exist, re-derive the
variables when `text` is supplied, reject a truthy supplied name that differs
from the current one and is already taken, then apply the update. -/
def update_template (st : DBState) (template_id : Nat) (u : TemplateUpdate) :
    Except ServiceError TemplateRec × DBState :=
  match db_get_template st template_id with
  | none => (.error (.notFound template_id), st)
  | some existing =>
    let u' := deriveUpd u
    match nameToCheck u' existing.name with
    | some n =>
      match db_get_template_by_name st n with
      | some _ => (.error (.duplicateName n), st)
      | none => update_apply st template_id u'
    | none => update_apply st template_id u'

/-- The `TemplateStatsResponse` of `app/models.py` as filled in by
`TemplateService.get_stats`. -/
structure TemplateStatsResponse where
  total_templates : Nat
  total_usage : Nat
  most_used_template : MostUsed
  categories_count : Nat
  recent_templates : List TemplateRec
deriving Repr, DecidableEq

/-- `TemplateService.get_stats`: the database statistics plus the five most
recent templates. -/
def get_stats (st : DBState) : TemplateStatsResponse :=
  let s := db_get_stats st
  ⟨s.total_templates, s.total_usage, s.most_used_template, s.categories_count,
   db_get_all_templates st none (some 5) 0⟩

/-! ## Character-class facts

The whitespace class, the identifier class and the literal delimiter
characters `<`, `%`, `=`, `>` are pairwise disjoint; this is what makes the
greedy regex matches deterministic. -/

theorem isSpc_mem {c : Char} (h : isSpc c = true) : c ∈ pySpaceChars := by
  have h' : pySpaceChars.elem c = true := h
  exact List.mem_of_elem_eq_true h'

theorem spaceChars_not_identChar :
    pySpaceChars.all (fun c => !identChar c) = true := by decide

theorem identChar_not_spc {c : Char} (h : identChar c = true) : isSpc c = false := by
  by_contra hs
  rw [Bool.not_eq_false] at hs
  have hni := List.all_eq_true.mp spaceChars_not_identChar c (isSpc_mem hs)
  rw [h] at hni
  simp at hni

theorem identStart_not_spc {c : Char} (h : identStart c = true) : isSpc c = false :=
  identChar_not_spc (by simp [identChar, h])

theorem identStart_identChar {c : Char} (h : identStart c = true) : identChar c = true := by
  simp [identChar, h]

theorem spc_all_not_mem {ws : List Char} (h : ws.all isSpc = true) {c : Char}
    (hc : isSpc c = false) : c ∉ ws := by
  intro hmem
  rw [List.all_eq_true] at h
  rw [h c hmem] at hc
  cases hc

theorem identChar_all_not_mem {l : List Char} (h : l.all identChar = true) {c : Char}
    (hc : identChar c = false) : c ∉ l := by
  intro hmem
  rw [List.all_eq_true] at h
  rw [h c hmem] at hc
  cases hc

/-! ## Facts about `sortStrs` -/

theorem insertStr_perm (a : String) (l : List String) :
    List.Perm (insertStr a l) (a :: l) := by
  induction l with
  | nil => rfl
  | cons b l ih =>
    rw [insertStr]
    split
    · rfl
    · exact (List.Perm.cons b ih).trans (List.Perm.swap a b l)

theorem sortStrs_perm (l : List String) : List.Perm (sortStrs l) l := by
  induction l with
  | nil => rfl
  | cons a l ih => exact (insertStr_perm a (sortStrs l)).trans (List.Perm.cons a ih)

theorem lexLe_total (a b : List Char) : lexLe a b = true ∨ lexLe b a = true := by
  induction a generalizing b with
  | nil => left; rfl
  | cons x xs ih =>
    cases b with
    | nil => right; rfl
    | cons y ys =>
      by_cases hxy : x = y
      · subst hxy
        simpa [lexLe] using ih ys
      · rcases lt_trichotomy x y with h | h | h
        · left
          simp [lexLe, hxy, h]
        · exact absurd h hxy
        · right
          have hyx : ¬ y = x := fun hh => hxy hh.symm
          simp [lexLe, hyx, h]

theorem lexLe_trans : ∀ {a b c : List Char},
    lexLe a b = true → lexLe b c = true → lexLe a c = true
  | [], _, _, _, _ => rfl
  | x :: xs, [], c, hab, _ => by simp [lexLe] at hab
  | x :: xs, y :: ys, [], _, hbc => by simp [lexLe] at hbc
  | x :: xs, y :: ys, z :: zs, hab, hbc => by
    by_cases hxy : x = y
    · subst hxy
      by_cases hyz : x = z
      · subst hyz
        rw [lexLe, if_pos rfl] at hab hbc ⊢
        exact lexLe_trans hab hbc
      · rw [lexLe, if_neg hyz] at hbc ⊢
        exact hbc
    · by_cases hyz : y = z
      · subst hyz
        rw [lexLe, if_neg hxy] at hab ⊢
        exact hab
      · rw [lexLe, if_neg hxy] at hab
        rw [lexLe, if_neg hyz] at hbc
        have hxz : x < z :=
          lt_trans (of_decide_eq_true hab) (of_decide_eq_true hbc)
        have hne : ¬ x = z := ne_of_lt hxz
        rw [lexLe, if_neg hne]
        exact decide_eq_true hxz

theorem strLe_total (a b : String) : strLe a b = true ∨ strLe b a = true :=
  lexLe_total a.data b.data

theorem strLe_trans {a b c : String} (h1 : strLe a b = true) (h2 : strLe b c = true) :
    strLe a c = true :=
  lexLe_trans h1 h2

theorem insertStr_pairwise {a : String} {l : List String}
    (h : l.Pairwise (fun x y => strLe x y = true)) :
    (insertStr a l).Pairwise (fun x y => strLe x y = true) := by
  induction l with
  | nil => simp [insertStr]
  | cons b l ih =>
    rw [insertStr]
    rcases List.pairwise_cons.mp h with ⟨hb, hl⟩
    split
    · rename_i hab
      refine List.pairwise_cons.mpr ⟨?_, h⟩
      intro x hx
      rcases List.mem_cons.mp hx with hx | hx
      · exact hx ▸ hab
      · exact strLe_trans hab (hb x hx)
    · rename_i hab
      have hba : strLe b a = true := by
        rcases strLe_total a b with h' | h'
        · exact absurd h' hab
        · exact h'
      refine List.pairwise_cons.mpr ⟨?_, ih hl⟩
      intro x hx
      have := (insertStr_perm a l).mem_iff.mp hx
      rcases List.mem_cons.mp this with hx' | hx'
      · exact hx' ▸ hba
      · exact hb x hx'

theorem sortStrs_pairwise (l : List String) :
    (sortStrs l).Pairwise (fun x y => strLe x y = true) := by
  induction l with
  | nil => simp [sortStrs]
  | cons a l ih => exact insertStr_pairwise ih

theorem sortStrs_nodup {l : List String} (h : l.Nodup) : (sortStrs l).Nodup :=
  ((sortStrs_perm l).nodup_iff).mpr h

theorem mem_sortStrs {a : String} {l : List String} : a ∈ sortStrs l ↔ a ∈ l :=
  (sortStrs_perm l).mem_iff

theorem spc_not_identChar {c : Char} (h : isSpc c = true) : identChar c = false := by
  by_contra hc
  rw [Bool.not_eq_false] at hc
  rw [identChar_not_spc hc] at h
  cases h

theorem takeWhile_nil_of_head {p : Char → Bool} {b : List Char}
    (h : ∀ x, b.head? = some x → p x = false) : b.takeWhile p = [] := by
  cases b with
  | nil => rfl
  | cons x xs =>
    apply List.takeWhile_cons_of_neg
    simp [h x rfl]

theorem dropWhile_self_of_head {p : Char → Bool} {b : List Char}
    (h : ∀ x, b.head? = some x → p x = false) : b.dropWhile p = b := by
  cases b with
  | nil => rfl
  | cons x xs =>
    apply List.dropWhile_cons_of_neg
    simp [h x rfl]

theorem all_takeWhile (p : Char → Bool) (l : List Char) :
    (l.takeWhile p).all p = true := by
  rw [List.all_eq_true]
  intro x hx
  exact List.mem_takeWhile_imp hx

/-! ## Soundness and completeness of the three matchers

`matchFill1`, `matchFill2` and `matchVar` succeed exactly on the texts whose
front is a placeholder of the corresponding delimiter shape.  (Completeness
uses that an identifier never starts with whitespace, so the greedy `\s*` of
the Python pattern is forced.) -/

theorem matchFill1_sound {name cs : List Char} {ir : List Char × List Char}
    (h : matchFill1 name cs = some ir) :
    ∃ ws1 ws2 : List Char, ws1.all isSpc = true ∧ ws2.all isSpc = true ∧
      ir.1 = ws1 ++ name ++ ws2 ++ ['%', '>'] ∧
      cs = ws1 ++ name ++ ws2 ++ '%' :: '>' :: ir.2 := by
  unfold matchFill1 at h
  split at h
  · exact absurd h (by simp)
  · rename_i cs2 hstrip
    split at h
    · rename_i rest heq
      cases h
      refine ⟨cs.takeWhile isSpc, cs2.takeWhile isSpc,
        all_takeWhile _ _, all_takeWhile _ _, rfl, ?_⟩
      have hcs : cs = cs.takeWhile isSpc ++ (name ++ cs2) := by
        rw [← stripPref_sound hstrip, List.takeWhile_append_dropWhile]
      have hcs2 : cs2 = cs2.takeWhile isSpc ++ '%' :: '>' :: rest := by
        rw [← heq, List.takeWhile_append_dropWhile]
      conv_lhs => rw [hcs, hcs2]
      simp [List.append_assoc]
    · exact absurd h (by simp)

theorem matchFill1_complete {name ws1 ws2 r : List Char} (hn : validIdentL name = true)
    (h1 : ws1.all isSpc = true) (h2 : ws2.all isSpc = true) :
    matchFill1 name (ws1 ++ name ++ ws2 ++ '%' :: '>' :: r)
      = some (ws1 ++ name ++ ws2 ++ ['%', '>'], r) := by
  cases name with
  | nil => exact absurd hn (by simp [validIdentL])
  | cons c nm =>
    have hc : identStart c = true := by
      simp only [validIdentL, Bool.and_eq_true] at hn
      exact hn.1
    have hdrop : (ws1 ++ (c :: nm ++ (ws2 ++ '%' :: '>' :: r))).dropWhile isSpc
        = c :: nm ++ (ws2 ++ '%' :: '>' :: r) := by
      rw [List.dropWhile_append_of_pos (by simpa using List.all_eq_true.mp h1)]
      exact List.dropWhile_cons_of_neg (by simp [identStart_not_spc hc])
    have htake : (ws1 ++ (c :: nm ++ (ws2 ++ '%' :: '>' :: r))).takeWhile isSpc
        = ws1 := by
      rw [show ((c :: nm) ++ (ws2 ++ '%' :: '>' :: r) : List Char)
          = c :: (nm ++ (ws2 ++ '%' :: '>' :: r)) from rfl]
      rw [List.takeWhile_append_of_pos (by simpa using List.all_eq_true.mp h1)]
      rw [List.takeWhile_cons_of_neg (by simp [identStart_not_spc hc]),
        List.append_nil]
    have hdrop2 : (ws2 ++ '%' :: '>' :: r).dropWhile isSpc = '%' :: '>' :: r := by
      rw [List.dropWhile_append_of_pos (by simpa using List.all_eq_true.mp h2)]
      exact List.dropWhile_cons_of_neg (by decide)
    have htake2 : (ws2 ++ '%' :: '>' :: r).takeWhile isSpc = ws2 := by
      rw [List.takeWhile_append_of_pos (by simpa using List.all_eq_true.mp h2)]
      rw [List.takeWhile_cons_of_neg (by decide), List.append_nil]
    unfold matchFill1
    rw [show ws1 ++ (c :: nm) ++ ws2 ++ '%' :: '>' :: r
        = ws1 ++ (c :: nm ++ (ws2 ++ '%' :: '>' :: r)) by simp [List.append_assoc]]
    rw [hdrop, stripPref_self]
    simp only [hdrop2, htake, htake2]

theorem matchFill2_sound {name cs : List Char} {ir : List Char × List Char}
    (h : matchFill2 name cs = some ir) :
    ∃ ws0 ws1 ws2 : List Char, ws0.all isSpc = true ∧ ws1.all isSpc = true ∧
      ws2.all isSpc = true ∧
      ir.1 = ws0 ++ '=' :: (ws1 ++ name ++ ws2 ++ ['%', '>']) ∧
      cs = ws0 ++ '=' :: (ws1 ++ name ++ ws2 ++ '%' :: '>' :: ir.2) := by
  unfold matchFill2 at h
  split at h
  · rename_i cs1 heq
    split at h
    · rename_i ir1 hm1
      cases h
      obtain ⟨ws1, ws2, hw1, hw2, hint, hcs1⟩ := matchFill1_sound hm1
      refine ⟨cs.takeWhile isSpc, ws1, ws2, all_takeWhile _ _, hw1, hw2, ?_, ?_⟩
      · show cs.takeWhile isSpc ++ '=' :: ir1.1
            = cs.takeWhile isSpc ++ '=' :: (ws1 ++ name ++ ws2 ++ ['%', '>'])
        rw [hint]
      · have hcs : cs = cs.takeWhile isSpc ++ '=' :: cs1 := by
          rw [← heq, List.takeWhile_append_dropWhile]
        conv_lhs => rw [hcs, hcs1]
    · exact absurd h (by simp)
  · exact absurd h (by simp)

theorem matchFill2_complete {name ws0 ws1 ws2 r : List Char}
    (hn : validIdentL name = true) (h0 : ws0.all isSpc = true)
    (h1 : ws1.all isSpc = true) (h2 : ws2.all isSpc = true) :
    matchFill2 name (ws0 ++ '=' :: (ws1 ++ name ++ ws2 ++ '%' :: '>' :: r))
      = some (ws0 ++ '=' :: (ws1 ++ name ++ ws2 ++ ['%', '>']), r) := by
  have htake0 : (ws0 ++ '=' :: (ws1 ++ name ++ ws2 ++ '%' :: '>' :: r)).takeWhile isSpc
      = ws0 := by
    rw [List.takeWhile_append_of_pos (by simpa using List.all_eq_true.mp h0)]
    rw [List.takeWhile_cons_of_neg (by decide), List.append_nil]
  unfold matchFill2
  rw [List.dropWhile_append_of_pos (by simpa using List.all_eq_true.mp h0)]
  rw [List.dropWhile_cons_of_neg (by decide)]
  simp only [matchFill1_complete hn h1 h2, htake0]

theorem matchVar_sound {cs : List Char} {nm : String} {rest : List Char}
    (h : matchVar cs = some (nm, rest)) :
    validIdent nm = true ∧
    ∃ ws1 ws2 : List Char, ws1.all isSpc = true ∧ ws2.all isSpc = true ∧
      cs = ws1 ++ nm.data ++ ws2 ++ '%' :: '>' :: rest := by
  unfold matchVar at h
  cases hnm : (cs.dropWhile isSpc).takeWhile identChar with
  | nil => simp [hnm] at h
  | cons c nmrest =>
    simp only [hnm] at h
    by_cases hs : identStart c = true
    · simp only [hs, if_true] at h
      split at h
      · rename_i rest' heq
        rw [Option.some.injEq, Prod.mk.injEq] at h
        obtain ⟨hnm_eq, hrest_eq⟩ := h
        rw [hrest_eq] at heq
        have hdata : nm.data = c :: nmrest := by rw [← hnm_eq]
        constructor
        · rw [validIdent, hdata, validIdentL]
          rw [Bool.and_eq_true]
          refine ⟨hs, ?_⟩
          rw [List.all_eq_true]
          intro x hx
          exact List.mem_takeWhile_imp (hnm ▸ List.mem_cons_of_mem c hx)
        · refine ⟨cs.takeWhile isSpc,
            ((cs.dropWhile isSpc).dropWhile identChar).takeWhile isSpc,
            all_takeWhile _ _, all_takeWhile _ _, ?_⟩
          have e1 : cs = cs.takeWhile isSpc ++ cs.dropWhile isSpc :=
            (List.takeWhile_append_dropWhile ..).symm
          have e2 : cs.dropWhile isSpc
              = (c :: nmrest) ++ (cs.dropWhile isSpc).dropWhile identChar := by
            rw [← hnm, List.takeWhile_append_dropWhile]
          have e3 : (cs.dropWhile isSpc).dropWhile identChar
              = ((cs.dropWhile isSpc).dropWhile identChar).takeWhile isSpc
                ++ '%' :: '>' :: rest := by
            rw [← heq, List.takeWhile_append_dropWhile]
          rw [hdata]
          conv_lhs => rw [e1, e2, e3]
          simp [List.append_assoc]
      · exact absurd h (by simp)
    · simp [hs] at h

theorem matchVar_complete {nm ws1 ws2 r : List Char} (hn : validIdentL nm = true)
    (h1 : ws1.all isSpc = true) (h2 : ws2.all isSpc = true) :
    matchVar (ws1 ++ nm ++ ws2 ++ '%' :: '>' :: r) = some (String.mk nm, r) := by
  cases nm with
  | nil => exact absurd hn (by simp [validIdentL])
  | cons c nmrest =>
    simp only [validIdentL, Bool.and_eq_true] at hn
    obtain ⟨hc, hrest⟩ := hn
    have hall : ∀ x ∈ c :: nmrest, identChar x = true := by
      intro x hx
      rcases List.mem_cons.mp hx with hx | hx
      · exact hx ▸ identStart_identChar hc
      · exact List.all_eq_true.mp hrest x hx
    have hheadX : ∀ x, (ws2 ++ '%' :: '>' :: r).head? = some x → identChar x = false := by
      intro x hx
      cases ws2 with
      | nil =>
        simp only [List.nil_append, List.head?_cons, Option.some.injEq] at hx
        subst hx
        decide
      | cons w ws' =>
        simp only [List.cons_append, List.head?_cons, Option.some.injEq] at hx
        subst hx
        exact spc_not_identChar (List.all_eq_true.mp h2 _ (List.mem_cons_self _ _))
    have hdrop : (ws1 ++ (c :: nmrest) ++ ws2 ++ '%' :: '>' :: r).dropWhile isSpc
        = (c :: nmrest) ++ (ws2 ++ '%' :: '>' :: r) := by
      rw [show ws1 ++ (c :: nmrest) ++ ws2 ++ '%' :: '>' :: r
          = ws1 ++ ((c :: nmrest) ++ (ws2 ++ '%' :: '>' :: r)) by simp [List.append_assoc]]
      rw [List.dropWhile_append_of_pos (by simpa using List.all_eq_true.mp h1)]
      exact List.dropWhile_cons_of_neg (by simp [identStart_not_spc hc])
    have htake : ((c :: nmrest) ++ (ws2 ++ '%' :: '>' :: r)).takeWhile identChar
        = c :: nmrest := by
      rw [List.takeWhile_append_of_pos hall, takeWhile_nil_of_head hheadX,
        List.append_nil]
    have hdrop2 : ((c :: nmrest) ++ (ws2 ++ '%' :: '>' :: r)).dropWhile identChar
        = ws2 ++ '%' :: '>' :: r := by
      rw [List.dropWhile_append_of_pos hall, dropWhile_self_of_head hheadX]
    have hdrop3 : (ws2 ++ '%' :: '>' :: r).dropWhile isSpc = '%' :: '>' :: r := by
      rw [List.dropWhile_append_of_pos (by simpa using List.all_eq_true.mp h2)]
      exact List.dropWhile_cons_of_neg (by decide)
    unfold matchVar
    rw [hdrop, htake, hdrop2, hdrop3]
    simp [hc]

/-! ## The declarative specification of one `re.sub` pass

`IsPh1 name m` (resp. `IsPh2 name m`) says that `m` is exactly one
placeholder occurrence of `name` in the delimiter shape `<%=` ws name ws `%>`
(resp. `<%` ws `=` ws name ws `%>`, the whitespace-tolerant variant).
`ReplAll Ph rep input output` is the leftmost, non-overlapping
replace-all relation: scanning the input left to right, whenever the current
position begins an occurrence `m` the occurrence is consumed and `rep m`
emitted (the replacement is a function of the matched span, because a
replacement template may reference group 0), and otherwise one character is
copied. -/

def IsPh1 (name m : List Char) : Prop :=
  ∃ ws1 ws2 : List Char, ws1.all isSpc = true ∧ ws2.all isSpc = true ∧
    m = '<' :: '%' :: '=' :: (ws1 ++ name ++ ws2 ++ ['%', '>'])

def IsPh2 (name m : List Char) : Prop :=
  ∃ ws0 ws1 ws2 : List Char, ws0.all isSpc = true ∧ ws1.all isSpc = true ∧
    ws2.all isSpc = true ∧
    m = '<' :: '%' :: (ws0 ++ '=' :: (ws1 ++ name ++ ws2 ++ ['%', '>']))

inductive ReplAll (Ph : List Char → Prop) (rep : List Char → List Char) :
    List Char → List Char → Prop where
  | nil : ReplAll Ph rep [] []
  | copy (c : Char) (cs out : List Char)
      (hno : ∀ m r, c :: cs = m ++ r → ¬ Ph m)
      (h : ReplAll Ph rep cs out) : ReplAll Ph rep (c :: cs) (c :: out)
  | repl (m r out : List Char) (hm : Ph m)
      (h : ReplAll Ph rep r out) : ReplAll Ph rep (m ++ r) (rep m ++ out)

theorem matchFill1_some_isPh1 {name cs : List Char} {ir : List Char × List Char}
    (h : matchFill1 name cs = some ir) :
    IsPh1 name ('<' :: '%' :: '=' :: ir.1) ∧
      '<' :: '%' :: '=' :: cs = ('<' :: '%' :: '=' :: ir.1) ++ ir.2 := by
  obtain ⟨ws1, ws2, h1, h2, hint, hcs⟩ := matchFill1_sound h
  constructor
  · exact ⟨ws1, ws2, h1, h2, by rw [hint]⟩
  · rw [hcs, hint]
    simp [List.append_assoc]

theorem isPh1_at_matchFill1 {name m r cs : List Char} (hn : validIdentL name = true)
    (hm : IsPh1 name m) (heq : '<' :: '%' :: '=' :: cs = m ++ r) :
    matchFill1 name cs = some (m.drop 3, r) := by
  obtain ⟨ws1, ws2, h1, h2, rfl⟩ := hm
  simp only [List.cons_append, List.cons.injEq, true_and] at heq
  rw [show cs = ws1 ++ name ++ ws2 ++ '%' :: '>' :: r by
    rw [heq]; simp [List.append_assoc]]
  rw [matchFill1_complete hn h1 h2]
  simp

theorem matchFill1_none_noPh1 {name cs : List Char} (hn : validIdentL name = true)
    (h : matchFill1 name cs = none) :
    ∀ m r, '<' :: '%' :: '=' :: cs = m ++ r → ¬ IsPh1 name m := by
  intro m r heq hm
  rw [isPh1_at_matchFill1 hn hm heq] at h
  cases h

theorem noPh1_of_shape {nm : List Char} {l : List Char}
    (hshape : ∀ t, l ≠ '<' :: '%' :: '=' :: t) :
    ∀ m r, l = m ++ r → ¬ IsPh1 nm m := by
  intro m r heq hm
  obtain ⟨ws1, ws2, _, _, rfl⟩ := hm
  exact hshape (ws1 ++ nm ++ ws2 ++ ['%', '>'] ++ r)
    (by rw [heq]; simp [List.append_assoc])

theorem matchFill2_some_isPh2 {name cs : List Char} {ir : List Char × List Char}
    (h : matchFill2 name cs = some ir) :
    IsPh2 name ('<' :: '%' :: ir.1) ∧
      '<' :: '%' :: cs = ('<' :: '%' :: ir.1) ++ ir.2 := by
  obtain ⟨ws0, ws1, ws2, h0, h1, h2, hint, hcs⟩ := matchFill2_sound h
  constructor
  · exact ⟨ws0, ws1, ws2, h0, h1, h2, by rw [hint]⟩
  · rw [hcs, hint]
    simp [List.append_assoc]

theorem isPh2_at_matchFill2 {name m r cs : List Char} (hn : validIdentL name = true)
    (hm : IsPh2 name m) (heq : '<' :: '%' :: cs = m ++ r) :
    matchFill2 name cs = some (m.drop 2, r) := by
  obtain ⟨ws0, ws1, ws2, h0, h1, h2, rfl⟩ := hm
  simp only [List.cons_append, List.cons.injEq, true_and] at heq
  rw [show cs = ws0 ++ '=' :: (ws1 ++ name ++ ws2 ++ '%' :: '>' :: r) by
    rw [heq]; simp [List.append_assoc]]
  rw [matchFill2_complete hn h0 h1 h2]
  simp

theorem matchFill2_none_noPh2 {name cs : List Char} (hn : validIdentL name = true)
    (h : matchFill2 name cs = none) :
    ∀ m r, '<' :: '%' :: cs = m ++ r → ¬ IsPh2 name m := by
  intro m r heq hm
  rw [isPh2_at_matchFill2 hn hm heq] at h
  cases h

theorem noPh2_of_shape {nm : List Char} {l : List Char}
    (hshape : ∀ t, l ≠ '<' :: '%' :: t) :
    ∀ m r, l = m ++ r → ¬ IsPh2 nm m := by
  intro m r heq hm
  obtain ⟨ws0, ws1, ws2, _, _, _, rfl⟩ := hm
  exact hshape (ws0 ++ '=' :: (ws1 ++ nm ++ ws2 ++ ['%', '>']) ++ r)
    (by rw [heq]; simp [List.append_assoc])

/-- The first `re.sub` pass of `_fill_template_variables` satisfies the
leftmost replace-all relation for the `<%= name %>` delimiter shape. -/
theorem subst1Scan_spec {name : List Char} (hn : validIdentL name = true)
    (tmpl : List TmplItem) :
    ∀ fuel cs, cs.length ≤ fuel →
      ReplAll (IsPh1 name) (expandTmpl tmpl) cs (subst1Scan name tmpl fuel cs) := by
  intro fuel
  induction fuel with
  | zero =>
    intro cs h
    have : cs = [] := List.eq_nil_of_length_eq_zero (Nat.le_zero.mp h)
    subst this
    exact .nil
  | succ fuel ih =>
    intro cs hlen
    cases cs with
    | nil => exact .nil
    | cons c cs' =>
      by_cases hsh : c = '<' ∧ ∃ t, cs' = '%' :: '=' :: t
      · obtain ⟨hc, t, ht⟩ := hsh
        subst hc
        subst ht
        rw [subst1Scan.eq_2]
        cases hm : matchFill1 name t with
        | some ir =>
          simp only [hm]
          obtain ⟨hPh, hdec⟩ := matchFill1_some_isPh1 hm
          rw [hdec]
          have hrest : ir.2.length ≤ fuel := by
            have := matchFill1_length hm
            simp only [List.length_cons] at hlen
            omega
          exact .repl _ ir.2 _ hPh (ih ir.2 hrest)
        | none =>
          simp only [hm]
          refine .copy '<' _ _ (matchFill1_none_noPh1 hn hm) (ih _ ?_)
          simp only [List.length_cons] at hlen ⊢
          omega
      · have hside : ∀ (t : List Char), c = '<' → cs' = '%' :: '=' :: t → False :=
          fun t h1 h2 => hsh ⟨h1, t, h2⟩
        rw [subst1Scan.eq_3 name tmpl fuel c cs' hside]
        refine .copy c _ _ ?_ (ih cs' ?_)
        · intro m r heq hm
          obtain ⟨ws1, ws2, _, _, rfl⟩ := hm
          simp only [List.cons_append, List.cons.injEq] at heq
          exact hside _ heq.1 heq.2
        · simp only [List.length_cons] at hlen
          omega

/-- The second `re.sub` pass satisfies the leftmost replace-all relation for
the `<% = name %>` delimiter shape. -/
theorem subst2Scan_spec {name : List Char} (hn : validIdentL name = true)
    (tmpl : List TmplItem) :
    ∀ fuel cs, cs.length ≤ fuel →
      ReplAll (IsPh2 name) (expandTmpl tmpl) cs (subst2Scan name tmpl fuel cs) := by
  intro fuel
  induction fuel with
  | zero =>
    intro cs h
    have : cs = [] := List.eq_nil_of_length_eq_zero (Nat.le_zero.mp h)
    subst this
    exact .nil
  | succ fuel ih =>
    intro cs hlen
    cases cs with
    | nil => exact .nil
    | cons c cs' =>
      by_cases hsh : c = '<' ∧ ∃ t, cs' = '%' :: t
      · obtain ⟨hc, t, ht⟩ := hsh
        subst hc
        subst ht
        rw [subst2Scan.eq_2]
        cases hm : matchFill2 name t with
        | some ir =>
          simp only [hm]
          obtain ⟨hPh, hdec⟩ := matchFill2_some_isPh2 hm
          rw [hdec]
          have hrest : ir.2.length ≤ fuel := by
            have := matchFill2_length hm
            simp only [List.length_cons] at hlen
            omega
          exact .repl _ ir.2 _ hPh (ih ir.2 hrest)
        | none =>
          simp only [hm]
          refine .copy '<' _ _ (matchFill2_none_noPh2 hn hm) (ih _ ?_)
          simp only [List.length_cons] at hlen ⊢
          omega
      · have hside : ∀ (t : List Char), c = '<' → cs' = '%' :: t → False :=
          fun t h1 h2 => hsh ⟨h1, t, h2⟩
        rw [subst2Scan.eq_3 name tmpl fuel c cs' hside]
        refine .copy c _ _ ?_ (ih cs' ?_)
        · intro m r heq hm
          obtain ⟨ws0, ws1, ws2, _, _, _, rfl⟩ := hm
          simp only [List.cons_append, List.cons.injEq] at heq
          exact hside _ heq.1 heq.2
        · simp only [List.length_cons] at hlen
          omega

theorem subst1_spec {name : List Char} (hn : validIdentL name = true)
    (tmpl : List TmplItem) (cs : List Char) :
    ReplAll (IsPh1 name) (expandTmpl tmpl) cs (subst1 name tmpl cs) :=
  subst1Scan_spec hn tmpl cs.length cs le_rfl

theorem subst2_spec {name : List Char} (hn : validIdentL name = true)
    (tmpl : List TmplItem) (cs : List Char) :
    ReplAll (IsPh2 name) (expandTmpl tmpl) cs (subst2 name tmpl cs) :=
  subst2Scan_spec hn tmpl cs.length cs le_rfl

/-- If no occurrence lies anywhere in the input, the replace-all relation
forces the output to equal the input. -/
theorem ReplAll.eq_self {Ph : List Char → Prop} {rep : List Char → List Char}
    {cs out : List Char} (h : ReplAll Ph rep cs out)
    (hno : ∀ l m r, cs = l ++ m ++ r → ¬ Ph m) : out = cs := by
  induction h with
  | nil => rfl
  | copy c cs out hno' h ih =>
    rw [ih (fun l m r heq hm => hno (c :: l) m r (by rw [heq]; simp) hm)]
  | repl m r out hm h ih => exact absurd hm (hno [] m r (by simp))

/-- A placeholder occurrence of `n` (in either delimiter shape) somewhere in
the text `t`. -/
def OccursPh (n t : String) : Prop :=
  ∃ l m r : List Char, t.data = l ++ m ++ r ∧ (IsPh1 n.data m ∨ IsPh2 n.data m)

/-- A key whose placeholder does not appear in the text leaves the text
unchanged, provided its value compiles to a valid replacement template (both
`re.sub` passes are identities). -/
theorem fillVar_unmatched {t n v : String} {tmpl : List TmplItem}
    (hn : validIdent n = true) (hp : parseTmpl v = .ok tmpl)
    (hno : ¬ OccursPh n t) : fillVar t n v = .ok t := by
  have hs1 : subst1 n.data tmpl t.data = t.data :=
    (subst1_spec hn tmpl t.data).eq_self
      (fun l m r heq hm => hno ⟨l, m, r, heq, Or.inl hm⟩)
  have hs2 : subst2 n.data tmpl t.data = t.data :=
    (subst2_spec hn tmpl t.data).eq_self
      (fun l m r heq hm => hno ⟨l, m, r, heq, Or.inr hm⟩)
  simp only [fillVar, hp, hs1, hs2]

/-- A mapping none of whose keys occurs in the text — each value compiling
to a valid replacement template — leaves the text unchanged. -/
theorem fill_unmatched {t : String} {vals : List (String × String)}
    (h : ∀ kv ∈ vals, validIdent kv.1 = true ∧
      (∃ tp, parseTmpl kv.2 = .ok tp) ∧ ¬ OccursPh kv.1 t) :
    fill_template_variables t vals = .ok t := by
  induction vals with
  | nil => rfl
  | cons kv rest ih =>
    obtain ⟨h1, ⟨tp, hp⟩, h2⟩ := h kv (List.mem_cons_self ..)
    rw [fill_template_variables, fillVar_unmatched h1 hp h2]
    exact ih (fun kv' hkv' => h kv' (List.mem_cons_of_mem _ hkv'))

/-! ## Correctness of the extraction scan

A name is collected by `extractScan` exactly when a placeholder occurrence
of it (in the strict `<%=` shape, with a valid identifier) appears somewhere
in the text.  Completeness rests on an overlap argument: a match contains the
character `<` only at its first position, so no occurrence can overlap a
match found earlier by the left-to-right scan. -/

theorem validIdentL_all {l : List Char} (h : validIdentL l = true) :
    l.all identChar = true := by
  cases l with
  | nil => exact absurd h (by simp [validIdentL])
  | cons c rest =>
    simp only [validIdentL, Bool.and_eq_true] at h
    simp only [List.all_cons, Bool.and_eq_true]
    exact ⟨identStart_identChar h.1, h.2⟩

theorem isPh1_at_matchVar {nm : String} {m r t : List Char}
    (hn : validIdent nm = true) (hm : IsPh1 nm.data m)
    (heq : '<' :: '%' :: '=' :: t = m ++ r) : matchVar t = some (nm, r) := by
  obtain ⟨ws1, ws2, h1, h2, rfl⟩ := hm
  simp only [List.cons_append, List.cons.injEq, true_and] at heq
  rw [show t = ws1 ++ nm.data ++ ws2 ++ '%' :: '>' :: r by
    rw [heq]; simp [List.append_assoc]]
  exact matchVar_complete hn h1 h2

theorem matchVar_none_noPh1 {nm : String} {t : List Char}
    (hn : validIdent nm = true) (h : matchVar t = none) :
    ∀ m r, '<' :: '%' :: '=' :: t = m ++ r → ¬ IsPh1 nm.data m := by
  intro m r heq hm
  rw [isPh1_at_matchVar hn hm heq] at h
  cases h

theorem lt_overlap {M A l B : List Char} (h : M ++ A = l ++ '<' :: B)
    (hl : l ≠ []) (hM : '<' ∉ M.drop 1) :
    ∃ l2, l = M ++ l2 ∧ A = l2 ++ '<' :: B := by
  rcases List.append_eq_append_iff.mp h with ⟨a', ha1, ha2⟩ | ⟨c', hc1, hc2⟩
  · exact ⟨a', ha1, ha2⟩
  · cases c' with
    | nil =>
      refine ⟨[], by simp [hc1], ?_⟩
      simp only [List.nil_append] at hc2 ⊢
      exact hc2.symm
    | cons x c'' =>
      have hx : x = '<' := by
        simp only [List.cons_append, List.cons.injEq] at hc2
        exact hc2.1.symm
      subst hx
      exfalso
      apply hM
      cases l with
      | nil => exact absurd rfl hl
      | cons y l' =>
        rw [hc1]
        simp

/-- Every name collected by the scan sits in a placeholder occurrence. -/
theorem extractScan_sound : ∀ (fuel : Nat) {cs : List Char} {nm : String},
    nm ∈ extractScan fuel cs →
    validIdent nm = true ∧ ∃ l m r, cs = l ++ m ++ r ∧ IsPh1 nm.data m := by
  intro fuel
  induction fuel with
  | zero =>
    intro cs nm h
    cases cs <;> simp [extractScan] at h
  | succ fuel ih =>
    intro cs nm h
    cases cs with
    | nil => simp [extractScan] at h
    | cons c cs' =>
      by_cases hsh : c = '<' ∧ ∃ t, cs' = '%' :: '=' :: t
      · obtain ⟨hc, t, ht⟩ := hsh
        subst hc
        subst ht
        rw [extractScan.eq_2] at h
        cases hm : matchVar t with
        | some nr =>
          rw [hm] at h
          rcases List.mem_cons.mp h with hnm | hnm
          · subst hnm
            obtain ⟨hvalid, ws1, ws2, h1, h2, hdec⟩ := matchVar_sound hm
            refine ⟨hvalid, [],
              '<' :: '%' :: '=' :: (ws1 ++ nr.1.data ++ ws2 ++ ['%', '>']), nr.2,
              ?_, ws1, ws2, h1, h2, rfl⟩
            rw [hdec]
            simp [List.append_assoc]
          · obtain ⟨hvalid, l, m, r, hdec, hPh⟩ := ih hnm
            obtain ⟨hvalid', ws1, ws2, h1, h2, hdect⟩ := matchVar_sound hm
            refine ⟨hvalid,
              '<' :: '%' :: '=' :: (ws1 ++ nr.1.data ++ ws2 ++ ['%', '>']) ++ l,
              m, r, ?_, hPh⟩
            rw [hdect, hdec]
            simp [List.append_assoc]
        | none =>
          rw [hm] at h
          obtain ⟨hvalid, l, m, r, hdec, hPh⟩ := ih h
          refine ⟨hvalid, '<' :: l, m, r, ?_, hPh⟩
          rw [show ('%' : Char) :: '=' :: t = l ++ m ++ r from hdec]
          simp [List.append_assoc]
      · have hside : ∀ (t : List Char), c = '<' → cs' = '%' :: '=' :: t → False :=
          fun t h1 h2 => hsh ⟨h1, t, h2⟩
        rw [extractScan.eq_3 fuel c cs' hside] at h
        obtain ⟨hvalid, l, m, r, hdec, hPh⟩ := ih h
        exact ⟨hvalid, c :: l, m, r, by rw [hdec]; simp [List.append_assoc], hPh⟩

/-- No character of the interior of a placeholder match is a `<`. -/
theorem lt_not_in_inner {sp1 sp2 nmd : List Char} (hs1 : sp1.all isSpc = true)
    (hs2 : sp2.all isSpc = true) (hid : nmd.all identChar = true) :
    ('<' : Char) ∉ '%' :: '=' :: (sp1 ++ nmd ++ sp2 ++ ['%', '>']) := by
  intro hmem
  rcases List.mem_cons.mp hmem with h | hmem
  · exact absurd h (by decide)
  rcases List.mem_cons.mp hmem with h | hmem
  · exact absurd h (by decide)
  rcases List.mem_append.mp hmem with hmem | h
  rotate_left
  · exact absurd h (by decide)
  rcases List.mem_append.mp hmem with hmem | h
  rotate_left
  · exact absurd (List.all_eq_true.mp hs2 _ h) (by decide)
  rcases List.mem_append.mp hmem with h | h
  · exact absurd (List.all_eq_true.mp hs1 _ h) (by decide)
  · exact absurd (List.all_eq_true.mp hid _ h) (by decide)

/-- Every placeholder occurrence of a valid identifier is collected by the
scan (given enough fuel; the text length the caller passes always is). -/
theorem extractScan_complete : ∀ (fuel : Nat) {cs : List Char} {nm : String},
    cs.length ≤ fuel → validIdent nm = true →
    (∃ l m r, cs = l ++ m ++ r ∧ IsPh1 nm.data m) → nm ∈ extractScan fuel cs := by
  intro fuel
  induction fuel with
  | zero =>
    intro cs nm hlen _ hocc
    obtain ⟨l, m, r, hdec, hPh⟩ := hocc
    obtain ⟨ws1, ws2, _, _, rfl⟩ := hPh
    have : cs = [] := List.eq_nil_of_length_eq_zero (Nat.le_zero.mp hlen)
    subst this
    simp at hdec
  | succ fuel ih =>
    intro cs nm hlen hvalid hocc
    obtain ⟨l, m, r, hdec, hPh⟩ := hocc
    cases cs with
    | nil =>
      obtain ⟨ws1, ws2, _, _, rfl⟩ := hPh
      simp at hdec
    | cons c cs' =>
      by_cases hsh : c = '<' ∧ ∃ t, cs' = '%' :: '=' :: t
      · obtain ⟨hc, t, ht⟩ := hsh
        subst hc
        subst ht
        rw [extractScan.eq_2]
        cases hm : matchVar t with
        | some nr =>
          simp only [hm]
          cases l with
          | nil =>
            simp only [List.nil_append] at hdec
            have hsome := isPh1_at_matchVar hvalid hPh hdec
            rw [hm, Option.some.injEq] at hsome
            rw [hsome]
            exact List.mem_cons_self ..
          | cons c0 l' =>
            obtain ⟨hvalid0, sp1, sp2, hs1, hs2, hdect⟩ := matchVar_sound hm
            obtain ⟨ws1, ws2, hw1, hw2, hmeq⟩ := hPh
            have hdecM : ('<' :: '%' :: '=' :: t : List Char)
                = ('<' :: '%' :: '=' :: (sp1 ++ nr.1.data ++ sp2 ++ ['%', '>'])) ++ nr.2 := by
              rw [hdect]
              simp [List.append_assoc]
            have hdec2 : ('<' :: '%' :: '=' :: t : List Char)
                = (c0 :: l') ++ '<' ::
                  (('%' :: '=' :: (ws1 ++ nm.data ++ ws2 ++ ['%', '>'])) ++ r) := by
              rw [hdec, hmeq]
              simp [List.append_assoc]
            obtain ⟨l2, _, hA⟩ := lt_overlap (hdecM.symm.trans hdec2) (by simp)
              (by
                simp only [List.drop_succ_cons, List.drop_zero]
                exact lt_not_in_inner hs1 hs2 (validIdentL_all hvalid0))
            have hocc2 : nr.2 = l2 ++ m ++ r := by
              rw [hA, hmeq]
              simp [List.append_assoc]
            have hfuel : nr.2.length ≤ fuel := by
              have := matchVar_length hm
              simp only [List.length_cons] at hlen
              omega
            exact List.mem_cons_of_mem _
              (ih hfuel hvalid ⟨l2, m, r, hocc2, ws1, ws2, hw1, hw2, hmeq⟩)
        | none =>
          simp only [hm]
          cases l with
          | nil =>
            simp only [List.nil_append] at hdec
            have hsome := isPh1_at_matchVar hvalid hPh hdec
            rw [hm] at hsome
            cases hsome
          | cons c0 l' =>
            have hdec' : ('%' :: '=' :: t : List Char) = l' ++ m ++ r := by
              have := hdec
              simp only [List.cons_append, List.cons.injEq] at this
              exact this.2
            have hfuel : ('%' :: '=' :: t : List Char).length ≤ fuel := by
              simp only [List.length_cons] at hlen ⊢
              omega
            exact ih hfuel hvalid ⟨l', m, r, hdec', hPh⟩
      · have hside : ∀ (t : List Char), c = '<' → cs' = '%' :: '=' :: t → False :=
          fun t h1 h2 => hsh ⟨h1, t, h2⟩
        rw [extractScan.eq_3 fuel c cs' hside]
        cases l with
        | nil =>
          exfalso
          obtain ⟨ws1, ws2, _, _, rfl⟩ := hPh
          simp only [List.nil_append, List.cons_append, List.cons.injEq] at hdec
          exact hside _ hdec.1 hdec.2
        | cons c0 l' =>
          have hdec' : cs' = l' ++ m ++ r := by
            have := hdec
            simp only [List.cons_append, List.cons.injEq] at this
            exact this.2
          have hfuel : cs'.length ≤ fuel := by
            simp only [List.length_cons] at hlen
            omega
          exact ih hfuel hvalid ⟨l', m, r, hdec', hPh⟩

theorem fillVar_empty {v : String} (n : String) {tmpl : List TmplItem}
    (hp : parseTmpl v = .ok tmpl) : fillVar "" n v = .ok "" := by
  simp only [fillVar, hp]
  rfl

theorem fill_empty {vals : List (String × String)}
    (h : ∀ kv ∈ vals, ∃ tp, parseTmpl kv.2 = .ok tp) :
    fill_template_variables "" vals = .ok "" := by
  induction vals with
  | nil => rfl
  | cons kv rest ih =>
    obtain ⟨tp, hp⟩ := h kv (List.mem_cons_self ..)
    rw [fill_template_variables, fillVar_empty kv.1 hp]
    exact ih (fun kv' hm => h kv' (List.mem_cons_of_mem _ hm))

/-! ## Facts about replacement-template compilation -/

/-- A template compiled from a backslash-free value is the value itself,
literally. -/
theorem expandTmpl_map_lit : ∀ (cs m : List Char), expandTmpl (cs.map .lit) m = cs
  | [], _ => rfl
  | c :: cs, m => by
    simp only [List.map_cons, expandTmpl]
    rw [expandTmpl_map_lit cs m]

/-- `parseEsc` only consumes characters: the rest it returns is no longer
than its input, so each step of `parseTmplScan` shrinks the text and fuel
equal to the initial length never runs out. -/
theorem parseEsc_length {c : Char} {cs : List Char} {ir : List TmplItem × List Char}
    (h : parseEsc c cs = .ok ir) : ir.2.length ≤ cs.length := by
  unfold parseEsc at h
  split at h
  · -- c = 'g'
    split at h
    · rename_i cs1
      have hd : (cs1.dropWhile (fun x => !(x = '>'))).length ≤ cs1.length :=
        dropWhile_length_le _ _
      split at h
      · rename_i x rest heq
        rw [heq] at hd
        simp only [List.length_cons] at hd
        split at h
        · exact absurd h (by simp)
        · split at h
          · cases h
            simp only [List.length_cons]
            omega
          · exact absurd h (by simp)
      · split at h
        · exact absurd h (by simp)
        · exact absurd h (by simp)
    · exact absurd h (by simp)
  · split at h
    · -- c = '0': octal escape
      split at h
      · rename_i d1 rest1
        split at h
        · split at h
          · rename_i d2 rest2
            split at h
            · cases h
              simp only [List.length_cons]
              omega
            · cases h
              simp only [List.length_cons]
              omega
          · cases h
            simp
        · cases h
          simp
      · cases h
        simp
    · split at h
      · -- c a digit 1-9: octal escape or group reference
        split at h
        · rename_i d2 rest2
          split at h
          · split at h
            · rename_i d3 rest3
              split at h
              · simp only [] at h
                split at h
                · exact absurd h (by simp)
                · cases h
                  simp only [List.length_cons]
                  omega
              · exact absurd h (by simp)
            · exact absurd h (by simp)
          · exact absurd h (by simp)
        · exact absurd h (by simp)
      · -- value escapes and kept characters
        split at h
        · cases h
          exact le_rfl
        · split at h
          · exact absurd h (by simp)
          · cases h
            exact le_rfl

/-- A backslash-free replacement string compiles to itself: every character
becomes a literal item. -/
theorem parseTmplScan_no_bs : ∀ (fuel : Nat) (cs : List Char), cs.length ≤ fuel →
    ('\\' : Char) ∉ cs → parseTmplScan fuel cs = .ok (cs.map .lit)
  | fuel, [], _, _ => by cases fuel <;> rfl
  | 0, _ :: _, hlen, _ => by simp at hlen
  | fuel + 1, c :: cs, hlen, hn => by
    have hc : ¬ c = '\\' := fun hcc => hn (hcc ▸ List.mem_cons_self ..)
    have hrec := parseTmplScan_no_bs fuel cs
      (by simp only [List.length_cons] at hlen; omega)
      (fun hm => hn (List.mem_cons_of_mem _ hm))
    simp only [parseTmplScan, if_neg hc, hrec, List.map_cons]

theorem parseTmpl_no_bs {v : String} (h : ('\\' : Char) ∉ v.data) :
    parseTmpl v = .ok (v.data.map .lit) :=
  parseTmplScan_no_bs v.data.length v.data le_rfl h

/-- `_fill_template_variables` is the monadic fold of the per-key
substitution over the mapping in iteration order. -/
theorem fill_eq_foldlM : ∀ (t : String) (vals : List (String × String)),
    fill_template_variables t vals
      = vals.foldlM (fun acc kv => fillVar acc kv.1 kv.2) t
  | _, [] => rfl
  | t, kv :: rest => by
    rw [fill_template_variables, List.foldlM_cons]
    cases h : fillVar t kv.1 kv.2 with
    | error e => rfl
    | ok t2 =>
      show fill_template_variables t2 rest = _
      rw [fill_eq_foldlM t2 rest]
      rfl

theorem fillVar_ok_of_no_bs {v : String} (t n : String) (h : ('\\' : Char) ∉ v.data) :
    fillVar t n v
      = .ok ⟨subst2 n.data (v.data.map .lit)
          (subst1 n.data (v.data.map .lit) t.data)⟩ := by
  simp only [fillVar, parseTmpl_no_bs h]

/-- The fill of a mapping whose values are all backslash-free never
raises. -/
theorem fill_ok_of_no_bs : ∀ (t : String) (vals : List (String × String)),
    (∀ kv ∈ vals, ('\\' : Char) ∉ kv.2.data) →
    ∃ out, fill_template_variables t vals = .ok out
  | t, [], _ => ⟨t, rfl⟩
  | t, kv :: rest, h => by
    rw [fill_template_variables,
      fillVar_ok_of_no_bs t kv.1 (h kv (List.mem_cons_self ..))]
    exact fill_ok_of_no_bs _ rest (fun kv' hm => h kv' (List.mem_cons_of_mem _ hm))

/-- The bracketed stand-ins `preview_template` synthesizes never contain a
backslash: the variable between the brackets is an extracted identifier. -/
theorem standins_no_bs {text : String} {vals : List (String × String)} :
    ∀ kv ∈ previewStandins text vals, ('\\' : Char) ∉ kv.2.data := by
  intro kv hkv
  rw [previewStandins] at hkv
  obtain ⟨v, hv, rfl⟩ := List.mem_map.mp hkv
  have hvmem : v ∈ extract_variables_from_text text := (List.mem_filter.mp hv).1
  have hvalid : validIdent v = true := by
    rw [extract_variables_from_text, mem_sortStrs, List.mem_dedup] at hvmem
    exact (extractScan_sound _ hvmem).1
  intro hmem
  have hdata : ("[" ++ v ++ "]" : String).data = ("[".data ++ v.data) ++ "]".data :=
    rfl
  rw [hdata] at hmem
  rcases List.mem_append.mp hmem with hmem | hmem
  · rcases List.mem_append.mp hmem with hmem | hmem
    · exact absurd hmem (by decide)
    · exact identChar_all_not_mem (validIdentL_all hvalid) (by decide) hmem
  · exact absurd hmem (by decide)

/-! ## The claims about the placeholder engine -/

/-- C1 counterexample: the claim promises that a key whose placeholder does
not appear in the text is silently ignored, never an error, and that values
are inserted as their string form; but on the text `hello` — which contains
no placeholder at all — filling with the single entry `unused ↦ C:\Users`
raises `re.error` (`bad escape \U`), because `re.sub` compiles its
replacement argument as a template before scanning, matches or not. -/
theorem fill_bad_escape_counterexample :
    fill_template_variables "hello" [("unused", "C:\\Users")]
      = .error (.badEscape 'U') ∧
    fill_template_variables "hello" [("unused", "C:\\Users")] ≠ .ok "hello" :=
  ⟨by decide, by decide⟩

/-- C1 (amended): `fill` processes the mapping key by key in iteration order
(the monadic fold); `re.sub` first compiles each value into a replacement
template — a value whose template is invalid makes the whole fill raise
`re.error`, even when the key's placeholder never occurs in the text; for a
key that is an identifier and whose value's template is valid, the pass over
the text satisfies the leftmost replace-all relation for the `<%= name %>`
shape and then for the whitespace-tolerant `<% = name %>` shape, each
occurrence replaced by the expansion of the template at the match; a value
without a backslash compiles to itself and so is inserted verbatim; a key
with a valid value whose placeholder does not occur in the text leaves the
text unchanged, and a mapping all of whose keys are such leaves the text
unchanged (only such unmatched keys are silently ignored). -/
theorem fill_replaces_all_and_ignores_unmatched :
    ∀ (text : String) (vals : List (String × String)) (n v : String)
      (e : ReplError) (tmpl : List TmplItem) (rest : List (String × String)),
      fill_template_variables text vals
        = vals.foldlM (fun acc kv => fillVar acc kv.1 kv.2) text ∧
      (parseTmpl v = .error e →
        fillVar text n v = .error e ∧
        fill_template_variables text ((n, v) :: rest) = .error e) ∧
      (validIdent n = true → parseTmpl v = .ok tmpl →
        ReplAll (IsPh1 n.data) (expandTmpl tmpl) text.data
          (subst1 n.data tmpl text.data) ∧
        ReplAll (IsPh2 n.data) (expandTmpl tmpl) (subst1 n.data tmpl text.data)
          (subst2 n.data tmpl (subst1 n.data tmpl text.data)) ∧
        fillVar text n v
          = .ok ⟨subst2 n.data tmpl (subst1 n.data tmpl text.data)⟩) ∧
      (('\\' : Char) ∉ v.data →
        parseTmpl v = .ok (v.data.map .lit) ∧
        ∀ m, expandTmpl (v.data.map .lit) m = v.data) ∧
      (validIdent n = true → parseTmpl v = .ok tmpl → ¬ OccursPh n text →
        fillVar text n v = .ok text) ∧
      ((∀ kv ∈ vals, validIdent kv.1 = true ∧
          (∃ tp, parseTmpl kv.2 = .ok tp) ∧ ¬ OccursPh kv.1 text) →
        fill_template_variables text vals = .ok text) := by
  intro text vals n v e tmpl rest
  refine ⟨fill_eq_foldlM text vals, ?_, ?_, ?_, ?_, fun h => fill_unmatched h⟩
  · intro hpe
    have h1 : fillVar text n v = .error e := by simp only [fillVar, hpe]
    exact ⟨h1, by rw [fill_template_variables, h1]⟩
  · intro hn hp
    exact ⟨subst1_spec hn tmpl text.data, subst2_spec hn tmpl _,
      by simp only [fillVar, hp]⟩
  · intro hnb
    exact ⟨parseTmpl_no_bs hnb, fun m => expandTmpl_map_lit v.data m⟩
  · intro hn hp hno
    exact fillVar_unmatched hn hp hno

/-- C2: `extract_variables` returns a duplicate-free list, sorted by the
code-point (lexicographic) string order; a name is a member exactly when it
is a valid identifier occurring in a `<%= identifier %>` placeholder in the
text (whitespace inside the delimiters ignored, malformed delimiters never
matched); text without any placeholder occurrence yields the empty result;
and the function is deterministic, so re-running it on identical input
returns the identical result. -/
theorem extract_variables_spec :
    ∀ (t : String),
      (extract_variables_from_text t).Nodup ∧
      (extract_variables_from_text t).Pairwise (fun a b => strLe a b = true) ∧
      (∀ nm : String, nm ∈ extract_variables_from_text t ↔
        (validIdent nm = true ∧
          ∃ l m r : List Char, t.data = l ++ m ++ r ∧ IsPh1 nm.data m)) ∧
      ((∀ (nm : String) (l m r : List Char), t.data = l ++ m ++ r →
          ¬ IsPh1 nm.data m) → extract_variables_from_text t = []) ∧
      extract_variables_from_text t = extract_variables_from_text t := by
  intro t
  have hmem : ∀ nm : String, nm ∈ extract_variables_from_text t ↔
      (validIdent nm = true ∧
        ∃ l m r : List Char, t.data = l ++ m ++ r ∧ IsPh1 nm.data m) := by
    intro nm
    rw [extract_variables_from_text, mem_sortStrs, List.mem_dedup]
    exact ⟨fun h => extractScan_sound _ h,
      fun ⟨hv, hocc⟩ => extractScan_complete _ le_rfl hv hocc⟩
  refine ⟨sortStrs_nodup (List.nodup_dedup _), sortStrs_pairwise _, hmem, ?_, rfl⟩
  intro hno
  cases h : extract_variables_from_text t with
  | nil => rfl
  | cons a l =>
    obtain ⟨_, l', m, r', hdec, hPh⟩ := (hmem a).mp (h ▸ List.mem_cons_self ..)
    exact absurd hPh (hno a l' m r' hdec)

/-- C6 counterexample: the claim promises that `preview` never fails and
that empty input text yields the empty string; but with the empty text and
the supplied value `C:\Users` for `a`, `preview` raises `re.error`
(`bad escape \U`): the fill it delegates to compiles every supplied value as
a replacement template even though the empty text contains nothing to
replace. -/
theorem preview_bad_escape_counterexample :
    preview_template "" [("a", "C:\\Users")] = .error (.badEscape 'U') ∧
    preview_template "" [("a", "C:\\Users")] ≠ .ok "" :=
  ⟨by decide, by decide⟩

/-- C6 (amended): `preview` merges a bracketed stand-in `[v]` for every
extracted variable `v` with no supplied value into the mapping and fills;
the stand-ins are always valid replacement values, but a *supplied* value
containing an invalid backslash escape makes the underlying `re.sub` raise
`re.error` — even for empty input text — so `preview` only never fails, and
empty input only yields the empty string, when the supplied values are free
of backslashes; when every extracted variable is supplied no stand-in is
added, and `preview` coincides with `fill`; on the spec's example the
missing variable is rendered bracketed while the supplied one is replaced by
its value. -/
theorem preview_spec :
    ∀ (text : String) (vals : List (String × String)),
      preview_template text vals
        = fill_template_variables text (vals ++ previewStandins text vals) ∧
      ((∀ kv ∈ vals, ('\\' : Char) ∉ kv.2.data) →
        (∃ out, preview_template text vals = .ok out) ∧
        (text = "" → preview_template text vals = .ok "")) ∧
      ((extract_variables_from_text text).all
          (fun v => (vals.map Prod.fst).contains v) = true →
        preview_template text vals = fill_template_variables text vals) ∧
      preview_template "Hi <%= a %> and <%= b %>" [("a", "X")] = .ok "Hi X and [b]" := by
  intro text vals
  refine ⟨rfl, ?_, ?_, by decide⟩
  · intro hnb
    have hall : ∀ kv ∈ vals ++ previewStandins text vals,
        ('\\' : Char) ∉ kv.2.data := by
      intro kv hkv
      rcases List.mem_append.mp hkv with hkv | hkv
      · exact hnb kv hkv
      · exact standins_no_bs kv hkv
    refine ⟨fill_ok_of_no_bs text _ hall, ?_⟩
    intro htext
    subst htext
    exact fill_empty
      (fun kv hm => ⟨kv.2.data.map .lit, parseTmpl_no_bs (hall kv hm)⟩)
  · intro hall
    rw [preview_template, previewStandins]
    rw [List.filter_eq_nil_iff.mpr ?_, List.map_nil, List.append_nil]
    intro a ha
    rw [List.all_eq_true] at hall
    rw [hall a ha]
    decide

/-- C9: `fill` substitutes the keys one at a time, in the mapping's iteration
order (the final conjunct), so a value substituted for an earlier key that
contains a later key's placeholder is rewritten by the later key's pass; the
two concrete mappings below are equal as key-value sets (a permutation of
one another) yet produce different outputs. -/
theorem fill_depends_on_key_order :
    fill_template_variables "<%= a %>" [("a", "<%= b %>"), ("b", "B")] = .ok "B" ∧
    fill_template_variables "<%= a %>" [("b", "B"), ("a", "<%= b %>")]
      = .ok "<%= b %>" ∧
    List.Perm [("a", "<%= b %>"), ("b", "B")] [("b", "B"), ("a", "<%= b %>")] ∧
    (Except.ok "B" : Except ReplError String) ≠ .ok "<%= b %>" ∧
    (∀ (text : String) (vals : List (String × String)),
      fill_template_variables text vals
        = vals.foldlM (fun acc kv => fillVar acc kv.1 kv.2) text) :=
  ⟨by decide, by decide, by decide, by decide, fill_eq_foldlM⟩

/-- C10: `fill` and `extract_variables` disagree on what counts as a
placeholder: on the text `<% = a %>` (a space between `<%` and `=`)
extraction returns the empty list, yet filling with a value for `a` replaces
the `<% = a %>` variant and changes the text. -/
theorem fill_extract_delimiter_mismatch :
    extract_variables_from_text "<% = a %>" = [] ∧
    fill_template_variables "<% = a %>" [("a", "X")] = .ok "X" ∧
    (Except.ok "X" : Except ReplError String) ≠ .ok "<% = a %>" :=
  ⟨by decide, by decide, by decide⟩

/-! ## Helper lemmas about the store model -/

theorem find?_map_pres {l : List TemplateRec} {f : TemplateRec → TemplateRec}
    (hf : ∀ t, (f t).id = t.id) (j : Nat) :
    (l.map f).find? (fun t => t.id == j) = (l.find? (fun t => t.id == j)).map f := by
  induction l with
  | nil => rfl
  | cons t l ih =>
    simp only [List.map_cons]
    by_cases hj : (t.id == j) = true
    · have hj' : ((f t).id == j) = true := by rw [hf t]; exact hj
      rw [List.find?_cons_of_pos (p := fun (x : TemplateRec) => x.id == j) _ hj',
        List.find?_cons_of_pos (p := fun (x : TemplateRec) => x.id == j) _ hj]
      rfl
    · have hj' : ¬ ((f t).id == j) = true := by rw [hf t]; exact hj
      rw [List.find?_cons_of_neg (p := fun (x : TemplateRec) => x.id == j) _ hj',
        List.find?_cons_of_neg (p := fun (x : TemplateRec) => x.id == j) _ hj, ih]

theorem find?_ite_map_self {l : List TemplateRec} {tid : Nat} {tpl : TemplateRec}
    {g : TemplateRec → TemplateRec} (hg : ∀ t, (g t).id = t.id)
    (h : l.find? (fun t => t.id == tid) = some tpl) :
    (l.map (fun t => if t.id == tid then g t else t)).find? (fun t => t.id == tid)
      = some (g tpl) := by
  have hf : ∀ t, ((if t.id == tid then g t else t) : TemplateRec).id = t.id := by
    intro t
    split
    · exact hg t
    · rfl
  rw [find?_map_pres hf tid, h]
  have hid : (tpl.id == tid) = true := by
    have := List.find?_some h
    simpa using this
  show some (if (tpl.id == tid) = true then g tpl else tpl) = some (g tpl)
  rw [if_pos hid]

theorem find?_ite_map_other {l : List TemplateRec} {tid j : Nat} (hne : j ≠ tid)
    {g : TemplateRec → TemplateRec} (hg : ∀ t, (g t).id = t.id) :
    (l.map (fun t => if t.id == tid then g t else t)).find? (fun t => t.id == j)
      = l.find? (fun t => t.id == j) := by
  have hf : ∀ t, ((if t.id == tid then g t else t) : TemplateRec).id = t.id := by
    intro t
    split
    · exact hg t
    · rfl
  rw [find?_map_pres hf j]
  cases h : l.find? (fun t => t.id == j) with
  | none => rfl
  | some t =>
    have hid : (t.id == j) = true := by
      have := List.find?_some h
      simpa using this
    rw [beq_iff_eq] at hid
    have hf2 : (t.id == tid) = false := by
      rw [beq_eq_false_iff_ne, hid]
      exact hne
    show some (if (t.id == tid) = true then g t else t) = some t
    rw [if_neg (by rw [hf2]; exact Bool.false_ne_true)]

theorem find?_append_of_none {l1 l2 : List TemplateRec} {p : TemplateRec → Bool}
    (h : ∀ t ∈ l1, p t = false) : (l1 ++ l2).find? p = l2.find? p := by
  induction l1 with
  | nil => rfl
  | cons t l1 ih =>
    rw [List.cons_append, List.find?_cons_of_neg, ih]
    · exact fun t' ht' => h t' (List.mem_cons_of_mem _ ht')
    · rw [h t (List.mem_cons_self ..)]
      exact Bool.false_ne_true

/-! ## The claims about the template operations layer -/

/-- C8: `stats()` on an empty store returns total template count 0, total
usage 0, a most-used entry whose name is null (with usage count 0, which is
how `DatabaseManager.get_stats` renders the absent row), and distinct
non-null category count 0 (and no recent templates). -/
theorem get_stats_empty_store :
    ∀ st : DBState, st.templates = [] →
      get_stats st = ⟨0, 0, ⟨none, 0⟩, 0, []⟩ := by
  intro st h
  obtain ⟨tps, ul, ni, no⟩ := st
  simp only at h
  subst h
  rfl

/-- C8 witness: the empty store. -/
theorem get_stats_empty_store_witness :
    get_stats ⟨[], [], 1, 0⟩ = ⟨0, 0, ⟨none, 0⟩, 0, []⟩ :=
  get_stats_empty_store ⟨[], [], 1, 0⟩ rfl

/-- C5: when the declared variable list differs as a set from the variables
extracted from the body text, `create` silently stores the extracted list
instead (no error surfaced): the returned and stored record's variables are
`extract_variables(text)`, not the declared list. -/
theorem create_template_overrides_declared_vars :
    ∀ (st : DBState) (d : TemplateCreate),
      (∀ t ∈ st.templates, t.id < st.nextId) →
      db_get_template_by_name st d.name = none →
      sameSet (extract_variables_from_text d.text) d.vars = false →
      create_template st d
        = (.ok ⟨st.nextId, d.name, d.description, d.text,
            extract_variables_from_text d.text, d.category, st.now, st.now, 0⟩,
           { st with
             templates := st.templates ++
               [⟨st.nextId, d.name, d.description, d.text,
                 extract_variables_from_text d.text, d.category, st.now, st.now, 0⟩],
             nextId := st.nextId + 1 }) ∧
      db_get_template (create_template st d).2 st.nextId
        = some ⟨st.nextId, d.name, d.description, d.text,
            extract_variables_from_text d.text, d.category, st.now, st.now, 0⟩ := by
  intro st d hfresh hname hss
  have hfind : (st.templates ++
      [(⟨st.nextId, d.name, d.description, d.text,
        extract_variables_from_text d.text, d.category, st.now, st.now, 0⟩ :
          TemplateRec)]).find?
      (fun t => t.id == st.nextId)
      = some (⟨st.nextId, d.name, d.description, d.text,
          extract_variables_from_text d.text, d.category, st.now, st.now, 0⟩ :
            TemplateRec) := by
    rw [find?_append_of_none]
    · rw [List.find?_cons_of_pos]
      rw [beq_iff_eq]
    · intro t ht
      rw [beq_eq_false_iff_ne]
      exact Nat.ne_of_lt (hfresh t ht)
  have hcreate : create_template st d
      = (.ok ⟨st.nextId, d.name, d.description, d.text,
          extract_variables_from_text d.text, d.category, st.now, st.now, 0⟩,
         { st with
           templates := st.templates ++
             [⟨st.nextId, d.name, d.description, d.text,
               extract_variables_from_text d.text, d.category, st.now, st.now, 0⟩],
           nextId := st.nextId + 1 }) := by
    unfold create_template
    rw [hname]
    simp only [hss, Bool.false_eq_true, if_false, db_create_template]
    unfold db_get_template
    simp only [hfind]
  refine ⟨hcreate, ?_⟩
  rw [hcreate]
  unfold db_get_template
  exact hfind

/-- C5 witness: creating a template with declared variables `["x"]` but body
`<%= y %>` stores a record whose variables are `["y"]`, not `["x"]`. -/
theorem create_template_overrides_declared_vars_witness :
    create_template ⟨[], [], 1, 0⟩ ⟨"n", none, "<%= y %>", ["x"], none⟩
      = (.ok ⟨1, "n", none, "<%= y %>", ["y"], none, 0, 0, 0⟩,
         ⟨[⟨1, "n", none, "<%= y %>", ["y"], none, 0, 0, 0⟩], [], 2, 0⟩) ∧
    db_get_template
        (create_template ⟨[], [], 1, 0⟩ ⟨"n", none, "<%= y %>", ["x"], none⟩).2 1
      = some ⟨1, "n", none, "<%= y %>", ["y"], none, 0, 0, 0⟩ := by
  have h := create_template_overrides_declared_vars ⟨[], [], 1, 0⟩
    ⟨"n", none, "<%= y %>", ["x"], none⟩ (by intro t ht; cases ht) (by rfl) (by decide)
  have he : extract_variables_from_text "<%= y %>" = ["y"] := by decide
  rw [he] at h
  exact h

/-- C4 counterexample: with a template named `dup` already stored, creating
another `dup` fails — but the service's blanket `except Exception` re-raises
the duplicate-name `ValueError` as a bare `Exception`, so api.py's
`except ValueError → 400` never fires and the HTTP caller receives 500, not
400/409 as the claim states. -/
theorem create_duplicate_not_400_counterexample :
    create_template ⟨[⟨1, "dup", none, "t", [], none, 0, 0, 0⟩], [], 2, 5⟩
        ⟨"dup", none, "u", [], none⟩
      = (.error (.wrapped (.duplicateName "dup")),
         ⟨[⟨1, "dup", none, "t", [], none, 0, 0, 0⟩], [], 2, 5⟩) ∧
    createStatus (create_template ⟨[⟨1, "dup", none, "t", [], none, 0, 0, 0⟩], [], 2, 5⟩
        ⟨"dup", none, "u", [], none⟩).1 = 500 ∧
    (500 : Nat) ≠ 400 ∧ (500 : Nat) ≠ 409 := by
  refine ⟨by decide, by decide, by decide, by decide⟩

/-- C4 (amended): a create whose name is already stored fails with the
duplicate-name error (wrapped by the service into a bare `Exception`, so the
HTTP route surfaces it as 500 rather than 400/409), and no new record is
stored — the store is unchanged. -/
theorem create_duplicate_name_spec :
    ∀ (st : DBState) (d : TemplateCreate) (t0 : TemplateRec),
      db_get_template_by_name st d.name = some t0 →
      create_template st d = (.error (.wrapped (.duplicateName d.name)), st) ∧
      createStatus (create_template st d).1 = 500 ∧
      (create_template st d).2 = st := by
  intro st d t0 h
  have hc : create_template st d = (.error (.wrapped (.duplicateName d.name)), st) := by
    unfold create_template
    rw [h]
  exact ⟨hc, by rw [hc]; rfl, by rw [hc]⟩

/-- C4 witness: the amended theorem applied to a one-template store. -/
theorem create_duplicate_name_spec_witness :
    create_template ⟨[⟨1, "greet", none, "t", [], none, 0, 0, 0⟩], [], 2, 5⟩
        ⟨"greet", none, "u", [], none⟩
      = (.error (.wrapped (.duplicateName "greet")),
         ⟨[⟨1, "greet", none, "t", [], none, 0, 0, 0⟩], [], 2, 5⟩) :=
  (create_duplicate_name_spec ⟨[⟨1, "greet", none, "t", [], none, 0, 0, 0⟩], [], 2, 5⟩
    ⟨"greet", none, "u", [], none⟩ ⟨1, "greet", none, "t", [], none, 0, 0, 0⟩
    (by decide)).1

/-- C3 counterexample: the claim promises that whenever every declared
variable is supplied, `use` fills the text, increments the usage counter and
appends a usage record; but with the single declared variable `a` supplied
as `C:\Users`, the fill raises `re.error` (`bad escape \U`) at the
`_fill_template_variables` call — before the increment — so `use` fails (as
a non-`ValueError`) and the store, usage counter and usage log included, is
unchanged. -/
theorem use_all_supplied_error_counterexample :
    ((["a"] : List String).filter
        (fun v => !([("a", "C:\\Users")].map Prod.fst).contains v)).dedup = [] ∧
    use_template ⟨[⟨1, "greet", none, "Hi <%= a %>", ["a"], none, 0, 0, 0⟩],
        [], 2, 5⟩ 1 [("a", "C:\\Users")]
      = (.error (.regexError (.badEscape 'U')),
         ⟨[⟨1, "greet", none, "Hi <%= a %>", ["a"], none, 0, 0, 0⟩], [], 2, 5⟩) ∧
    isValueError (.regexError (.badEscape 'U')) = false :=
  ⟨by decide, by decide, by decide⟩

/-- C3 (amended): `use` on an existing template fails with
`MissingVariablesError` listing exactly the declared variables absent from
the supplied mapping's keys whenever at least one is missing (leaving the
store untouched); when none is missing it runs the fill — if the fill raises
(an invalid replacement value) the error propagates before the usage counter
is touched and the store is unchanged — and only when the fill also succeeds
does it return the filled text, echo the values used, add one to that
template's usage counter (all other templates unchanged) and append exactly
one usage record. -/
theorem use_template_spec :
    ∀ (st : DBState) (tid : Nat) (vals : List (String × String)) (tpl : TemplateRec),
      db_get_template st tid = some tpl →
      (∀ v, v ∈ (tpl.vars.filter (fun v => !(vals.map Prod.fst).contains v)).dedup
          ↔ v ∈ tpl.vars ∧ v ∉ vals.map Prod.fst) ∧
      ((tpl.vars.filter (fun v => !(vals.map Prod.fst).contains v)).dedup ≠ [] →
        use_template st tid vals
          = (.error (.missingVariables
              ((tpl.vars.filter (fun v => !(vals.map Prod.fst).contains v)).dedup)),
             st)) ∧
      ((tpl.vars.filter (fun v => !(vals.map Prod.fst).contains v)).dedup = [] →
        (∀ e, fill_template_variables tpl.text vals = .error e →
          use_template st tid vals = (.error (.regexError e), st)) ∧
        (∀ final, fill_template_variables tpl.text vals = .ok final →
          use_template st tid vals
            = (.ok ⟨final, tpl.name, vals⟩, db_increment_usage_count st tid) ∧
          db_get_template (db_increment_usage_count st tid) tid
            = some { tpl with usage_count := tpl.usage_count + 1 } ∧
          (∀ j, j ≠ tid → db_get_template (db_increment_usage_count st tid) j
            = db_get_template st j) ∧
          (db_increment_usage_count st tid).usageLog
            = st.usageLog ++ [(tid, st.now)] ∧
          (db_increment_usage_count st tid).usageLog.length
            = st.usageLog.length + 1)) := by
  intro st tid vals tpl h
  refine ⟨?_, ?_, ?_⟩
  · intro v
    simp [List.mem_dedup, List.mem_filter]
  · intro hne
    simp only [use_template, h]
    cases hd : (tpl.vars.filter (fun v => !(vals.map Prod.fst).contains v)).dedup with
    | nil => exact absurd hd hne
    | cons a l => simp
  · intro hempty
    constructor
    · intro e hfill
      simp only [use_template, h, hempty, List.isEmpty_nil, if_true, hfill]
    · intro final hfill
      refine ⟨?_, ?_, ?_, rfl, by simp [db_increment_usage_count]⟩
      · simp only [use_template, h, hempty, List.isEmpty_nil, if_true, hfill]
      · unfold db_get_template db_increment_usage_count
        exact find?_ite_map_self (fun t => rfl) h
      · intro j hj
        unfold db_get_template db_increment_usage_count
        exact find?_ite_map_other hj (fun t => rfl)

/-- C3 witness: `use(id, {})` on a template declaring variable `name` fails
with `MissingVariablesError` naming `name`, leaving the store unchanged. -/
theorem use_template_spec_witness :
    use_template ⟨[⟨1, "greet", none, "Hi <%= name %>!", ["name"], none, 0, 0, 0⟩],
        [], 2, 5⟩ 1 []
      = (.error (.missingVariables ["name"]),
         ⟨[⟨1, "greet", none, "Hi <%= name %>!", ["name"], none, 0, 0, 0⟩],
          [], 2, 5⟩) := by
  have h := (use_template_spec
    ⟨[⟨1, "greet", none, "Hi <%= name %>!", ["name"], none, 0, 0, 0⟩], [], 2, 5⟩ 1 []
    ⟨1, "greet", none, "Hi <%= name %>!", ["name"], none, 0, 0, 0⟩ (by decide)).2.1
    (by decide)
  have he : (((["name"] : List String).filter
      (fun v => !((([] : List (String × String))).map Prod.fst).contains v)).dedup)
      = ["name"] := by decide
  rw [he] at h
  exact h

theorem applyUpd_fields (u : TemplateUpdate) (now : Nat) (t : TemplateRec) :
    applyUpd u now t
      = ⟨t.id, u.name.getD t.name,
         (match u.description with
          | some d => some d
          | none => t.description),
         u.text.getD t.text, u.vars.getD t.vars,
         (match u.category with
          | some c => some c
          | none => t.category),
         t.created_at, now, t.usage_count⟩ := rfl

/-- C7 counterexample, refuting two promises of the claim at concrete
stores.  First, "the updated-at timestamp is always refreshed": an update
that supplies no fields, on an existing template, fails with the generic
"Failed to update template" error and does not refresh the stored
`updated_at` (it stays 0 though the clock reads 5).  Second, "if the
supplied name differs from the current name and collides with a different
existing record, the update fails with DuplicateNameError": renaming record
2 (named `x`) to the empty string while record 1 is already named the empty
string bypasses the service's duplicate pre-check (`if update_data.name`,
Python truthiness, is false for the empty string), so the `UPDATE` reaches
the database and fails with the `UNIQUE`-constraint `IntegrityError` — not a
`DuplicateNameError`, and not a `ValueError` at all (surfaced 500, not
400) — the record again unchanged. -/
theorem update_no_fields_counterexample :
    update_template ⟨[⟨1, "a", none, "t", [], none, 0, 0, 0⟩], [], 2, 5⟩ 1
        ⟨none, none, none, none, none⟩
      = (.error .updateFailed, ⟨[⟨1, "a", none, "t", [], none, 0, 0, 0⟩], [], 2, 5⟩) ∧
    db_get_template (update_template ⟨[⟨1, "a", none, "t", [], none, 0, 0, 0⟩],
        [], 2, 5⟩ 1 ⟨none, none, none, none, none⟩).2 1
      = some ⟨1, "a", none, "t", [], none, 0, 0, 0⟩ ∧
    (5 : Nat) ≠ 0 ∧
    update_template ⟨[⟨1, "", none, "t", [], none, 0, 0, 0⟩,
        ⟨2, "x", none, "t", [], none, 0, 0, 0⟩], [], 3, 5⟩ 2
        ⟨some "", none, none, none, none⟩
      = (.error (.integrityError ""),
         ⟨[⟨1, "", none, "t", [], none, 0, 0, 0⟩,
           ⟨2, "x", none, "t", [], none, 0, 0, 0⟩], [], 3, 5⟩) ∧
    isValueError (.integrityError "") = false ∧
    (ServiceError.integrityError "") ≠ .duplicateName "" := by
  refine ⟨by decide, by decide, by decide, by decide, by decide, by decide⟩

/-- C7 (amended): on an existing template, the applied record changes only
the supplied fields (variables re-derived from a supplied text the same way
as at create, via `deriveUpd`), keeps id, created-at and the usage counter,
and refreshes updated-at — whenever at least one field is supplied; an
update supplying no fields instead fails with a generic error and leaves the
store untouched; a supplied name that is truthy (non-empty), differs from
the current one and is already taken fails with `DuplicateNameError` and
leaves the store untouched; a supplied name the truthiness pre-check skips
(empty, or equal to the current name) that collides with a different record
at the database instead fails with the `UNIQUE`-constraint `IntegrityError`
(not a `ValueError`), again leaving the store untouched; on success — at
least one field, no pre-check collision, no database collision — all other
records, the usage log and the id counter are unchanged. -/
theorem update_template_spec :
    ∀ (st : DBState) (tid : Nat) (u : TemplateUpdate) (existing : TemplateRec),
      db_get_template st tid = some existing →
      (applyUpd (deriveUpd u) st.now existing
        = ⟨existing.id, (deriveUpd u).name.getD existing.name,
           (match (deriveUpd u).description with
            | some d => some d
            | none => existing.description),
           (deriveUpd u).text.getD existing.text,
           (deriveUpd u).vars.getD existing.vars,
           (match (deriveUpd u).category with
            | some c => some c
            | none => existing.category),
           existing.created_at, st.now, existing.usage_count⟩) ∧
      (updHasField (deriveUpd u) = false →
        update_template st tid u = (.error .updateFailed, st)) ∧
      (∀ n t0, nameToCheck (deriveUpd u) existing.name = some n →
        db_get_template_by_name st n = some t0 →
        update_template st tid u = (.error (.duplicateName n), st)) ∧
      (∀ n, (deriveUpd u).name = some n →
        nameToCheck (deriveUpd u) existing.name = none →
        nameConflictDb st tid n = true →
        update_template st tid u = (.error (.integrityError n), st) ∧
        isValueError (.integrityError n) = false) ∧
      (updHasField (deriveUpd u) = true →
        (∀ n, nameToCheck (deriveUpd u) existing.name = some n →
          db_get_template_by_name st n = none) →
        (∀ n, (deriveUpd u).name = some n → nameConflictDb st tid n = false) →
        update_template st tid u
          = (.ok (applyUpd (deriveUpd u) st.now existing),
             { st with templates := st.templates.map (fun t => if t.id == tid then applyUpd (deriveUpd u) st.now t else t) }) ∧
        db_get_template (update_template st tid u).2 tid
          = some (applyUpd (deriveUpd u) st.now existing) ∧
        (∀ j, j ≠ tid →
          db_get_template (update_template st tid u).2 j = db_get_template st j) ∧
        (update_template st tid u).2.usageLog = st.usageLog ∧
        (update_template st tid u).2.nextId = st.nextId) := by
  intro st tid u existing h
  refine ⟨rfl, ?_, ?_, ?_, ?_⟩
  · intro hfields
    have hname : (deriveUpd u).name = none := by
      cases hn : (deriveUpd u).name with
      | none => rfl
      | some n =>
        rw [updHasField, hn] at hfields
        simp at hfields
    unfold update_template
    rw [h]
    simp only [nameToCheck, hname]
    unfold update_apply db_update_template
    simp only [hfields, Bool.false_eq_true, if_false]
  · intro n t0 hn ht0
    unfold update_template
    rw [h]
    simp only [hn, ht0]
  · intro n hun hchk hconf
    have hfields : updHasField (deriveUpd u) = true := by
      rw [updHasField, hun]
      simp
    refine ⟨?_, rfl⟩
    unfold update_template
    rw [h]
    simp only [hchk]
    unfold update_apply db_update_template
    simp only [hfields, if_true, hun, hconf]
  · intro hfields hnocol hnoconf
    have h' : st.templates.find? (fun t => t.id == tid) = some existing := h
    have hany : (st.templates.any (fun t => t.id == tid)) = true := by
      rw [List.any_eq_true]
      exact ⟨existing, List.mem_of_find?_eq_some h',
        List.find?_some (p := fun (t : TemplateRec) => t.id == tid) h'⟩
    have hget : db_get_template
        { st with templates := st.templates.map (fun t => if t.id == tid then applyUpd (deriveUpd u) st.now t else t) } tid
        = some (applyUpd (deriveUpd u) st.now existing) := by
      unfold db_get_template
      exact find?_ite_map_self (fun t => rfl) h
    have happly : update_apply st tid (deriveUpd u)
        = (.ok (applyUpd (deriveUpd u) st.now existing),
           { st with templates := st.templates.map (fun t => if t.id == tid then applyUpd (deriveUpd u) st.now t else t) }) := by
      unfold update_apply db_update_template
      simp only [hfields, if_true]
      cases hun : (deriveUpd u).name with
      | none => simp only [hany, hget]
      | some n =>
        simp only [hnoconf n hun, Bool.false_eq_true, if_false, hany, hget]
    have hupd : update_template st tid u
        = (.ok (applyUpd (deriveUpd u) st.now existing),
           { st with templates := st.templates.map (fun t => if t.id == tid then applyUpd (deriveUpd u) st.now t else t) }) := by
      unfold update_template
      rw [h]
      cases hc : nameToCheck (deriveUpd u) existing.name with
      | none =>
        simp only [hc]
        exact happly
      | some n =>
        simp only [hc, hnocol n hc]
        exact happly
    refine ⟨hupd, ?_, ?_, ?_, ?_⟩
    · rw [hupd]
      exact hget
    · intro j hj
      rw [hupd]
      unfold db_get_template
      exact find?_ite_map_other hj (fun t => rfl)
    · rw [hupd]
    · rw [hupd]

/-- C7 witness: supplying only a description updates just that field and
refreshes updated-at (0 becomes the clock value 5). -/
theorem update_template_spec_witness :
    update_template ⟨[⟨1, "a", none, "t", [], none, 0, 0, 0⟩], [], 2, 5⟩ 1
        ⟨none, some "d", none, none, none⟩
      = (.ok ⟨1, "a", some "d", "t", [], none, 0, 5, 0⟩,
         ⟨[⟨1, "a", some "d", "t", [], none, 0, 5, 0⟩], [], 2, 5⟩) := by
  have h := (update_template_spec ⟨[⟨1, "a", none, "t", [], none, 0, 0, 0⟩], [], 2, 5⟩ 1
    ⟨none, some "d", none, none, none⟩ ⟨1, "a", none, "t", [], none, 0, 0, 0⟩
    (by decide)).2.2.2.2 (by decide) (fun n hn => nomatch hn) (fun n hn => nomatch hn)
  exact h.1.trans (by decide)

end PromptTemplates
